import Mathlib

/-!
# claircore: OVAL dpkg definitions to vulnerabilities

A shallow embedding of `pkg/ovalutil/dpkg.go` (`DpkgDefsToVulns`,
`dpkgObjectLookup`, `dpkgStateLookup`).

Go pointers to `claircore.Package` are modelled as positions in an explicit
store (`List Package`); `nil` is `none`.  A Go run-time panic (nil dereference,
index out of range) is the `Fault` alternative of `Except`.
-/

set_option linter.dupNamespace false
set_option maxRecDepth 8000

namespace Claircore

/-! ## Data model -/

/-- Errors travelling on Go's `error` channel. `wrapped` is `fmt.Errorf("...: %w", cause)`. -/
inductive Err where
  | notFound (ref : String)
  | errObjectSkip
  | errStateSkip
  | factory (msg : String)
  | wrapped (msg : String) (cause : Err)
  deriving DecidableEq, Repr

/-- The chain test of `errors.Is err target`. -/
def Err.Is : Err → Err → Bool
  | .wrapped m c, t => (Err.wrapped m c == t) || Err.Is c t
  | e, t => e == t

/-- Run-time panics of the Go program. -/
inductive Fault where
  | nilDeref
  | indexOutOfRange
  deriving DecidableEq, Repr

/-- The comparison operator of an OVAL entity (`oval.Operation`). -/
inductive Operation where
  | OpEquals
  | OpNotEquals
  | OpGreaterThan
  | OpGreaterThanOrEqual
  | OpLessThan
  | OpLessThanOrEqual
  | OpPatternMatch
  deriving DecidableEq, Repr

/-- The architecture operation of a vulnerability (`claircore.ArchOp`); `OpNone` is the zero value. -/
inductive ArchOp where
  | OpNone
  | OpEquals
  | OpNotEquals
  | OpPatternMatch
  deriving DecidableEq, Repr

/-- The Go constant `claircore.BINARY`. -/
def BINARY : String := "binary"

/-- The fields of `claircore.Package` that the translation and the scanners touch. -/
structure Package where
  Name : String := ""
  Version : String := ""
  Kind : String := ""
  PackageDB : String := ""
  Arch : String := ""
  deriving DecidableEq, Repr

/-- The record `claircore.Vulnerability`; `Package` is a pointer into the package store. -/
structure Vulnerability where
  Updater : String := ""
  Name : String := ""
  Description : String := ""
  Links : String := ""
  Severity : String := ""
  Package : Option Nat := none
  FixedInVersion : String := ""
  ArchOperation : ArchOp := ArchOp.OpNone
  deriving DecidableEq, Repr

/-- A leaf of a criteria tree (`oval.Criterion`). -/
structure Criterion where
  TestRef : String
  deriving DecidableEq, Repr

/-- Modelled from the spec: the criteria tree (`oval.Criteria`, declared outside the
sources at hand) is a grouping node with an ordered list of children, each either
another grouping node or a criterion leaf, or is itself a leaf. -/
inductive Criteria where
  | leaf (c : Criterion)
  | group (operator : String) (children : List Criteria)

/-- One advisory entry (`oval.Definition`). -/
structure Definition where
  ID : String := ""
  Title : String := ""
  Criteria : Criteria

/-- One entry of `test.ObjectRef()`. -/
structure ObjectRef where
  ObjectRef : String
  deriving DecidableEq, Repr

/-- One entry of `test.StateRef()`. -/
structure StateRef where
  StateRef : String
  deriving DecidableEq, Repr

/-- What the interface `oval.Test` exposes: its object and state references. -/
structure Test where
  ObjectRefs : List ObjectRef
  StateRefs : List StateRef
  deriving DecidableEq, Repr

/-- The `name` element of a dpkginfo object: a literal body or a variable reference. -/
structure DpkgName where
  Ref : String := ""
  Body : String := ""
  deriving DecidableEq, Repr

/-- The record `oval.DpkgInfoObject`; `Name` is a nil-able pointer, only read. -/
structure DpkgInfoObject where
  ID : String := ""
  Name : Option DpkgName := none
  deriving DecidableEq, Repr

/-- The `evr` element of a state. -/
structure EVR where
  Body : String
  deriving DecidableEq, Repr

/-- The `arch` element of a state. -/
structure Arch where
  Operation : Operation
  Body : String
  deriving DecidableEq, Repr

/-- The record `oval.DpkgInfoState`; `EVR` and `Arch` are nil-able pointers, only read. -/
structure DpkgInfoState where
  ID : String := ""
  EVR : Option EVR := none
  Arch : Option Arch := none
  deriving DecidableEq, Repr

/-- One value of a constant variable. -/
structure Value where
  Body : String
  deriving DecidableEq, Repr

/-- The record `oval.ConstantVariable`. -/
structure ConstantVariable where
  ID : String := ""
  Values : List Value
  deriving DecidableEq, Repr

/-- Modelled from the spec: the reference index of the document model (the OVAL parser
library is not among the sources at hand) maps an opaque string ID to `(kind, position)`. -/
abbrev RefIndex := List (String × (String × Nat))

/-- Modelled from the spec: `Lookup` of the reference index returns the kind and the position
of an ID, or the index's not-found error. -/
def RefIndex.Lookup (ix : RefIndex) (ref : String) : Except Err (String × Nat) :=
  match List.lookup ref ix with
  | some kp => .ok kp
  | none => .error (.notFound ref)

/-- The objects of a document (`oval.Objects`). -/
structure Objects where
  Index : RefIndex := []
  DpkgInfoObjects : List DpkgInfoObject := []

/-- The states of a document (`oval.States`). -/
structure States where
  Index : RefIndex := []
  DpkgInfoStates : List DpkgInfoState := []

/-- The variables of a document (`oval.Variables`): the parser keeps the constant variables
and no variable of another kind. -/
structure Variables where
  ConstantVariables : List ConstantVariable := []

/-- The position of the first constant variable with the ID `ref`. -/
def positionOf (ref : String) : List ConstantVariable → Option Nat
  | [] => none
  | cv :: cvs => if cv.ID = ref then some 0 else (positionOf ref cvs).map (· + 1)

/-- Modelled from the spec: `Lookup` of the variables returns the kind and the position of
an ID, or the not-found error; the index is built from the constant variables alone, so an
ID that belongs to no constant variable is not found. -/
def Variables.Lookup (v : Variables) (ref : String) : Except Err (String × Nat) :=
  match positionOf ref v.ConstantVariables with
  | some i => .ok ("constant_variable", i)
  | none => .error (.notFound ref)

/-- Modelled from the spec: the tests of a document; `lookupTest(id)` yields `(kind, record)`. -/
abbrev Tests := List (String × (String × Test))

/-- The document (`oval.Root`). -/
structure Root where
  Definitions : List Definition := []
  Tests : Tests := []
  Objects : Objects := {}
  States : States := {}
  Variables : Variables := {}

/-- The injected factory `ProtoVulnsFunc`: the prototypes of a definition, or an error.
The pointers of the returned slice are taken to be non-nil. -/
abbrev ProtoVulnsFunc := Definition → Except Err (List Vulnerability)

/-! ## Collaborators that live outside `dpkg.go` -/

mutual
/-- Modelled from the spec: `walkCriterion` (the criteria flattener, declared outside the
sources at hand) descends the tree and yields its leaves in document order, discarding the
operators. -/
def walkCriterion : Criteria → List Criterion
  | .leaf c => [c]
  | .group _ cs => walkCriteria cs
/-- The flattening of a list of sibling nodes, left to right. -/
def walkCriteria : List Criteria → List Criterion
  | [] => []
  | c :: cs => walkCriterion c ++ walkCriteria cs
end

/-- Modelled from the spec: `TestLookup` (declared outside the sources at hand) called with a
nil acceptor resolves a test reference to its record, and fails with a wrapped not-found
error when the ID is absent from the index. -/
def TestLookup (root : Root) (ref : String) : Except Err Test :=
  match List.lookup ref root.Tests with
  | some (_, t) => .ok t
  | none => .error (.wrapped "ovalutil: failed to lookup test" (.notFound ref))

/-- Modelled from the spec: `mapArchOp` (declared outside the sources at hand) translates the
comparison operator of a state into the architecture operation of the output: equals,
not-equals and pattern-match map to their namesakes, anything else to the zero value. -/
def mapArchOp : Operation → ArchOp
  | .OpEquals => .OpEquals
  | .OpNotEquals => .OpNotEquals
  | .OpPatternMatch => .OpPatternMatch
  | _ => .OpNone

/-! ## `dpkg.go` -/

/-- Source `dpkgStateLookup` (dpkg.go:156-165). -/
def dpkgStateLookup (root : Root) (ref : String) : Except Fault (Except Err DpkgInfoState) :=
  match root.States.Index.Lookup ref with
  | .error err => .ok (.error err)
  | .ok (kind, i) =>
    if kind != "dpkginfo_state" then
      .ok (.error (.wrapped ("oval: got kind " ++ kind) .errStateSkip))
    else
      match root.States.DpkgInfoStates[i]? with
      | some s => .ok (.ok s)
      | none => .error .indexOutOfRange

/-- Source `dpkgObjectLookup` (dpkg.go:167-176). -/
def dpkgObjectLookup (root : Root) (ref : String) : Except Fault (Except Err DpkgInfoObject) :=
  match root.Objects.Index.Lookup ref with
  | .error err => .ok (.error err)
  | .ok (kind, i) =>
    if kind != "dpkginfo_object" then
      .ok (.error (.wrapped ("oval: got kind " ++ kind) .errObjectSkip))
    else
      match root.Objects.DpkgInfoObjects[i]? with
      | some o => .ok (.ok o)
      | none => .error .indexOutOfRange

/-- The mutable state of one run of `DpkgDefsToVulns`: the package store, the per-run
name-keyed cache `pkgcache`, and the output slice `vulns`. -/
structure St where
  heap : List Package
  pkgcache : List (String × Nat)
  vulns : List Vulnerability
  deriving DecidableEq, Repr

/-- The assignment `p.Arch = a` through a package pointer. -/
def setArch (heap : List Package) (p : Nat) (a : String) : List Package :=
  heap.modify (fun pkg => { pkg with Arch := a }) p

/-- The writes that a resolved state makes to the copy `vuln` (dpkg.go:130-136):
`vuln.FixedInVersion = state.EVR.Body`, and for a state with an arch
`vuln.ArchOperation = mapArchOp(state.Arch.Operation)` and
`vuln.Package.Arch = state.Arch.Body`, the latter through the pointer the copy holds. -/
def applyState (state : Option DpkgInfoState) (vuln : Vulnerability) (heap : List Package) :
    Except Fault (Vulnerability × List Package) :=
  match state with
  | none => .ok (vuln, heap)
  | some s =>
    match s.EVR with
    | none => .error .nilDeref
    | some evr =>
      match s.Arch with
      | none => .ok ({ vuln with FixedInVersion := evr.Body }, heap)
      | some arch =>
        match vuln.Package with
        | none => .error .nilDeref
        | some p =>
          .ok ({ vuln with FixedInVersion := evr.Body,
                           ArchOperation := mapArchOp arch.Operation },
               setArch heap p arch.Body)

/-- The resolution of the package through `pkgcache` and the append to `vulns`
(dpkg.go:137-147). -/
def attachPackage (vuln : Vulnerability) (heap : List Package) (st : St) (n : String) : St :=
  match List.lookup n st.pkgcache with
  | none =>
    { heap := heap ++ [{ Name := n, Kind := BINARY }],
      pkgcache := (n, heap.length) :: st.pkgcache,
      vulns := st.vulns ++ [{ vuln with Package := some heap.length }] }
  | some pkg =>
    { heap := heap,
      pkgcache := st.pkgcache,
      vulns := st.vulns ++ [{ vuln with Package := some pkg }] }

/-- The body of the loop over names (dpkg.go:128-148); `vuln := *protoVuln` copies the
prototype, pointer field included. -/
def perName (state : Option DpkgInfoState) (protoVuln : Vulnerability) (st : St) (n : String) :
    Except Fault St :=
  match applyState state protoVuln st.heap with
  | .error f => .error f
  | .ok (vuln, heap) => .ok (attachPackage vuln heap st n)

/-- The resolution of the names of an object (dpkg.go:107-127): `none` is the `continue`
taken when the variable lookup fails; an object without a name makes `name.Ref` a nil
dereference. -/
def resolveNames (root : Root) (name : Option DpkgName) :
    Except Fault (Option (List String)) :=
  match name with
  | none => .error .nilDeref
  | some name =>
    if 0 < name.Ref.length then
      match root.Variables.Lookup name.Ref with
      | .error _ => .ok none
      | .ok (_, i) =>
        match root.Variables.ConstantVariables[i]? with
        | none => .error .indexOutOfRange
        | some consts => .ok (some (consts.Values.map (fun v => v.Body)))
    else
      .ok (some [name.Body])

/-- The body of the loop over prototypes (dpkg.go:106-149). -/
def perProto (root : Root) (object : DpkgInfoObject) (state : Option DpkgInfoState)
    (st : St) (protoVuln : Vulnerability) : Except Fault St :=
  match resolveNames root object.Name with
  | .error f => .error f
  | .ok none => .ok st
  | .ok (some ns) => ns.foldlM (perName state protoVuln) st

/-- The tail of the pair loop once object and state are settled (dpkg.go:100-149): a state
without EVR skips the pair, otherwise every prototype is expanded. -/
def expandPair (root : Root) (object : DpkgInfoObject) (state : Option DpkgInfoState)
    (protoVulns : List Vulnerability) (st : St) : Except Fault St :=
  match state with
  | some s =>
    if s.EVR.isNone then .ok st
    else protoVulns.foldlM (perProto root object (some s)) st
  | none => protoVulns.foldlM (perProto root object none) st

/-- The body of the loop over object/state pairs (dpkg.go:68-150). -/
def perPair (root : Root) (noVersion : Bool) (objRefs : List ObjectRef)
    (stateRefs : List StateRef) (protoVulns : List Vulnerability) (st : St) (i : Nat) :
    Except Fault St :=
  match objRefs[i]? with
  | none => .error .indexOutOfRange
  | some objRef =>
    match dpkgObjectLookup root objRef.ObjectRef with
    | .error f => .error f
    | .ok (.error _) => .ok st
    | .ok (.ok object) =>
      match stateRefs[i]? with
      | none => expandPair root object none protoVulns st
      | some stateRef =>
        match dpkgStateLookup root stateRef.StateRef with
        | .error f => .error f
        | .ok (.error _) =>
          if noVersion then expandPair root object none protoVulns st else .ok st
        | .ok (.ok s) => expandPair root object (some s) protoVulns st

/-- The body of the loop over criterions (dpkg.go:39-151); `ncris` is `len(cris)`. -/
def perCriterion (root : Root) (protoVulns : List Vulnerability) (ncris : Nat)
    (st : St) (criterion : Criterion) : Except Fault St :=
  match TestLookup root criterion.TestRef with
  | .error _ => .ok st
  | .ok test =>
    if ncris = 1 then
      (List.range test.ObjectRefs.length).foldlM
        (perPair root true test.ObjectRefs test.StateRefs protoVulns) st
    else if test.ObjectRefs.length = 1 ∧ test.StateRefs.length = 0 then
      .ok st
    else if test.ObjectRefs.length ≠ test.StateRefs.length then
      .ok st
    else
      (List.range test.ObjectRefs.length).foldlM
        (perPair root false test.ObjectRefs test.StateRefs protoVulns) st

/-- The body of the loop over definitions (dpkg.go:25-152). -/
def perDef (root : Root) (protoVulns : ProtoVulnsFunc) (st : St) (d : Definition) :
    Except Fault St :=
  match protoVulns d with
  | .error _ => .ok st
  | .ok pvs =>
    (walkCriterion d.Criteria).foldlM
      (perCriterion root pvs (walkCriterion d.Criteria).length) st

/-- What a completed call returns: the vulnerabilities, the error value, and the package
store through which the `Package` pointers of the vulnerabilities are read. -/
structure Output where
  vulns : List Vulnerability
  err : Option Err
  heap : List Package
  deriving DecidableEq, Repr

/-- The state at the start of a run: empty cache, empty output. -/
def St.init (heap : List Package) : St :=
  { heap := heap, pkgcache := [], vulns := [] }

/-- The run of `DpkgDefsToVulns` up to its return statement. -/
def run (root : Root) (protoVulns : ProtoVulnsFunc) (heap : List Package) : Except Fault St :=
  root.Definitions.foldlM (perDef root protoVulns) (St.init heap)

/-- Source `DpkgDefsToVulns` (dpkg.go:17-154); `heap` holds the packages the prototypes
point to. The returned error is always nil. -/
def DpkgDefsToVulns (root : Root) (protoVulns : ProtoVulnsFunc) (heap : List Package) :
    Except Fault Output :=
  (run root protoVulns heap).map fun st =>
    { vulns := st.vulns, err := none, heap := st.heap }

/-! ## Test documents -/

/-- The document of the end-to-end scenario: one definition, `AND(criterion → tst:1)`,
one object `openssl`, one state with EVR `1.1.1-1` and no arch. -/
def opensslRoot : Root :=
  { Definitions := [{ ID := "def:1", Criteria := .group "AND" [.leaf ⟨"tst:1"⟩] }],
    Tests := [("tst:1", ("dpkginfo_test",
      { ObjectRefs := [⟨"obj:1"⟩], StateRefs := [⟨"ste:1"⟩] }))],
    Objects := { Index := [("obj:1", ("dpkginfo_object", 0))],
                 DpkgInfoObjects := [{ Name := some { Body := "openssl" } }] },
    States := { Index := [("ste:1", ("dpkginfo_state", 0))],
                DpkgInfoStates := [{ EVR := some ⟨"1.1.1-1"⟩ }] } }

/-- A factory that returns one prototype without a package for every definition. -/
def oneProto : ProtoVulnsFunc := fun d => .ok [{ Updater := "test", Name := d.ID }]

/-- Two criteria of one definition that name the same object with two different states. -/
def dedupRoot : Root :=
  { Definitions :=
      [{ ID := "def:1", Criteria := .group "OR" [.leaf ⟨"tst:1"⟩, .leaf ⟨"tst:2"⟩] }],
    Tests := [("tst:1", ("dpkginfo_test",
                 { ObjectRefs := [⟨"obj:1"⟩], StateRefs := [⟨"ste:1"⟩] })),
              ("tst:2", ("dpkginfo_test",
                 { ObjectRefs := [⟨"obj:1"⟩], StateRefs := [⟨"ste:2"⟩] }))],
    Objects := { Index := [("obj:1", ("dpkginfo_object", 0))],
                 DpkgInfoObjects := [{ Name := some { Body := "openssl" } }] },
    States := { Index := [("ste:1", ("dpkginfo_state", 0)), ("ste:2", ("dpkginfo_state", 1))],
                DpkgInfoStates := [{ EVR := some ⟨"1.1.1-1"⟩ }, { EVR := some ⟨"1.1.1-2"⟩ }] } }

/-- The end-to-end document with an architecture constraint `amd64` (equals) on its state. -/
def archRoot : Root :=
  { Definitions := [{ ID := "def:1", Criteria := .group "AND" [.leaf ⟨"tst:1"⟩] }],
    Tests := [("tst:1", ("dpkginfo_test",
      { ObjectRefs := [⟨"obj:1"⟩], StateRefs := [⟨"ste:1"⟩] }))],
    Objects := { Index := [("obj:1", ("dpkginfo_object", 0))],
                 DpkgInfoObjects := [{ Name := some { Body := "openssl" } }] },
    States := { Index := [("ste:1", ("dpkginfo_state", 0))],
                DpkgInfoStates := [{ EVR := some ⟨"1.1.1-1"⟩,
                                     Arch := some ⟨Operation.OpEquals, "amd64"⟩ }] } }

/-- A factory whose one prototype points to the package at position 0 of the store. -/
def protoWithPackage : ProtoVulnsFunc :=
  fun d => .ok [{ Updater := "test", Name := d.ID, Package := some 0 }]

/-- A factory whose two prototypes share the package at position 0 of the store. -/
def twoProtosOnePackage : ProtoVulnsFunc :=
  fun d => .ok [{ Updater := "test", Name := d.ID, Package := some 0 },
                { Updater := "test", Name := d.ID, Description := "second", Package := some 0 }]

/-- A store with the one package the prototypes of the two factories above point to. -/
def templateHeap : List Package := [{ Name := "template" }]

/-- A document with two criteria: the object of `tst:1` names its package through `var:1`,
which is no constant variable of the document (the only one is `var:2`); the object of
`tst:2` is `openssl`. -/
def missingVariableRoot : Root :=
  { Definitions :=
      [{ ID := "def:1", Criteria := .group "AND" [.leaf ⟨"tst:1"⟩, .leaf ⟨"tst:2"⟩] }],
    Tests := [("tst:1", ("dpkginfo_test",
                 { ObjectRefs := [⟨"obj:1"⟩], StateRefs := [⟨"ste:1"⟩] })),
              ("tst:2", ("dpkginfo_test",
                 { ObjectRefs := [⟨"obj:2"⟩], StateRefs := [⟨"ste:1"⟩] }))],
    Objects := { Index := [("obj:1", ("dpkginfo_object", 0)), ("obj:2", ("dpkginfo_object", 1))],
                 DpkgInfoObjects := [{ Name := some { Ref := "var:1" } },
                                     { Name := some { Body := "openssl" } }] },
    States := { Index := [("ste:1", ("dpkginfo_state", 0))],
                DpkgInfoStates := [{ EVR := some ⟨"1.1.1-1"⟩ }] },
    Variables := { ConstantVariables := [{ ID := "var:2", Values := [⟨"libssl"⟩] }] } }

/-- A document whose object names its packages through the constant variable `var:1` with
the values `a`, `b`, `c`, paired with one state. -/
def fanOutRoot : Root :=
  { Definitions := [{ ID := "def:1", Criteria := .group "AND" [.leaf ⟨"tst:1"⟩] }],
    Tests := [("tst:1", ("dpkginfo_test",
      { ObjectRefs := [⟨"obj:1"⟩], StateRefs := [⟨"ste:1"⟩] }))],
    Objects := { Index := [("obj:1", ("dpkginfo_object", 0))],
                 DpkgInfoObjects := [{ Name := some { Ref := "var:1" } }] },
    States := { Index := [("ste:1", ("dpkginfo_state", 0))],
                DpkgInfoStates := [{ EVR := some ⟨"1.1.1-1"⟩ }] },
    Variables := { ConstantVariables :=
      [{ ID := "var:1", Values := [⟨"a"⟩, ⟨"b"⟩, ⟨"c"⟩] }] } }

/-- A document whose one definition has one criterion, whose test has one object reference
and no state reference. -/
def installedRoot : Root :=
  { Definitions := [{ ID := "def:1", Criteria := .group "AND" [.leaf ⟨"tst:1"⟩] }],
    Tests := [("tst:1", ("dpkginfo_test", { ObjectRefs := [⟨"obj:1"⟩], StateRefs := [] }))],
    Objects := { Index := [("obj:1", ("dpkginfo_object", 0))],
                 DpkgInfoObjects := [{ Name := some { Body := "openssl" } }] } }

/-- A definition with two criteria: `tst:1` has one object reference and no state reference,
`tst:2` pairs the object with a state. -/
def mixedRoot : Root :=
  { Definitions :=
      [{ ID := "def:1", Criteria := .group "AND" [.leaf ⟨"tst:1"⟩, .leaf ⟨"tst:2"⟩] }],
    Tests := [("tst:1", ("dpkginfo_test", { ObjectRefs := [⟨"obj:1"⟩], StateRefs := [] })),
              ("tst:2", ("dpkginfo_test",
                 { ObjectRefs := [⟨"obj:2"⟩], StateRefs := [⟨"ste:1"⟩] }))],
    Objects := { Index := [("obj:1", ("dpkginfo_object", 0)), ("obj:2", ("dpkginfo_object", 1))],
                 DpkgInfoObjects := [{ Name := some { Body := "bash" } },
                                     { Name := some { Body := "openssl" } }] },
    States := { Index := [("ste:1", ("dpkginfo_state", 0))],
                DpkgInfoStates := [{ EVR := some ⟨"1.1.1-1"⟩ }] } }

/-- The end-to-end document with a state that has no EVR. -/
def noEvrRoot : Root :=
  { Definitions := [{ ID := "def:1", Criteria := .group "AND" [.leaf ⟨"tst:1"⟩] }],
    Tests := [("tst:1", ("dpkginfo_test",
      { ObjectRefs := [⟨"obj:1"⟩], StateRefs := [⟨"ste:1"⟩] }))],
    Objects := { Index := [("obj:1", ("dpkginfo_object", 0))],
                 DpkgInfoObjects := [{ Name := some { Body := "openssl" } }] },
    States := { Index := [("ste:1", ("dpkginfo_state", 0))],
                DpkgInfoStates := [{ ID := "ste:1" }] } }

/-- The tests, objects and states of the five-criteria scenario; `tst:3` is not among the
tests. -/
def fiveRootWith (defs : List Definition) : Root :=
  { Definitions := defs,
    Tests := [("tst:1", ("dpkginfo_test",
                 { ObjectRefs := [⟨"obj:1"⟩], StateRefs := [⟨"ste:1"⟩] })),
              ("tst:2", ("dpkginfo_test",
                 { ObjectRefs := [⟨"obj:2"⟩], StateRefs := [⟨"ste:1"⟩] })),
              ("tst:4", ("dpkginfo_test",
                 { ObjectRefs := [⟨"obj:1"⟩], StateRefs := [⟨"ste:2"⟩] })),
              ("tst:5", ("dpkginfo_test",
                 { ObjectRefs := [⟨"obj:2"⟩], StateRefs := [⟨"ste:2"⟩] }))],
    Objects := { Index := [("obj:1", ("dpkginfo_object", 0)), ("obj:2", ("dpkginfo_object", 1))],
                 DpkgInfoObjects := [{ Name := some { Body := "bash" } },
                                     { Name := some { Body := "openssl" } }] },
    States := { Index := [("ste:1", ("dpkginfo_state", 0)), ("ste:2", ("dpkginfo_state", 1))],
                DpkgInfoStates := [{ EVR := some ⟨"1.0"⟩ }, { EVR := some ⟨"2.0"⟩ }] } }

/-- A definition with five criteria, the third of which refers to a test that is missing. -/
def fiveDef : Definition :=
  { ID := "def:5", Criteria := .group "OR" [.leaf ⟨"tst:1"⟩, .leaf ⟨"tst:2"⟩,
      .group "AND" [.leaf ⟨"tst:3"⟩, .leaf ⟨"tst:4"⟩], .leaf ⟨"tst:5"⟩] }

/-- The definition `fiveDef` without its third criterion. -/
def fourDef : Definition :=
  { ID := "def:5", Criteria := .group "OR" [.leaf ⟨"tst:1"⟩, .leaf ⟨"tst:2"⟩,
      .group "AND" [.leaf ⟨"tst:4"⟩], .leaf ⟨"tst:5"⟩] }

/-- The document `fanOutRoot` with an architecture constraint `amd64` (equals) on its
state. -/
def fanOutArchRoot : Root :=
  { fanOutRoot with
    States := { Index := [("ste:1", ("dpkginfo_state", 0))],
                DpkgInfoStates := [{ EVR := some ⟨"1.1.1-1"⟩,
                                     Arch := some ⟨Operation.OpEquals, "amd64"⟩ }] } }

/-- The state `run` reaches on `fanOutRoot` with one prototype: three packages, three
vulnerabilities. -/
def fanOutFinal : St :=
  { heap := [{ Name := "a", Kind := BINARY }, { Name := "b", Kind := BINARY },
             { Name := "c", Kind := BINARY }],
    pkgcache := [("c", 2), ("b", 1), ("a", 0)],
    vulns := [{ Updater := "test", Name := "def:1", Package := some 0,
                FixedInVersion := "1.1.1-1" },
              { Updater := "test", Name := "def:1", Package := some 1,
                FixedInVersion := "1.1.1-1" },
              { Updater := "test", Name := "def:1", Package := some 2,
                FixedInVersion := "1.1.1-1" }] }

/-! ## The invariant of the package cache -/

/-- The name of the package a pointer refers to, `none` for a dangling position. -/
def pkgName (heap : List Package) (a : Nat) : Option String :=
  (heap[a]?).map Package.Name

/-- The invariant of a run whose store had `base` packages at its start: every cache entry
points to a package of that name, every emitted vulnerability points to a cache entry, the
cache has one entry per name, and every package created by the run is the cache entry of
its name. -/
structure St.Inv (base : Nat) (st : St) : Prop where
  named : ∀ n a, List.lookup n st.pkgcache = some a → pkgName st.heap a = some n
  cached : ∀ v ∈ st.vulns, ∃ n a, List.lookup n st.pkgcache = some a ∧ v.Package = some a
  nodup : (st.pkgcache.map Prod.fst).Nodup
  created : ∀ a p, base ≤ a → st.heap[a]? = some p → List.lookup p.Name st.pkgcache = some a

/-! ## What one expansion appends -/

/-- The copy of the prototype after the writes of a resolved state (dpkg.go:129-136), the
`Package` pointer still that of the prototype. -/
def stateWrites (state : Option DpkgInfoState) (pv : Vulnerability) : Vulnerability :=
  match state with
  | none => pv
  | some s =>
    match s.EVR with
    | none => pv
    | some evr =>
      match s.Arch with
      | none => { pv with FixedInVersion := evr.Body }
      | some arch =>
        { pv with FixedInVersion := evr.Body, ArchOperation := mapArchOp arch.Operation }

/-- The vulnerability appended for the name `n`: the written copy, pointing to the cache
entry of `n`. -/
def emitted (cache : List (String × Nat)) (w : Vulnerability) (n : String) : Vulnerability :=
  { w with Package := List.lookup n cache }

/-- The cache `c1` extends the cache `c0`: every entry of `c0` is an entry of `c1`. -/
def CacheLe (c0 c1 : List (String × Nat)) : Prop :=
  ∀ n a, List.lookup n c0 = some a → List.lookup n c1 = some a

/-- A document whose object and state indexes mix kinds: `obj:2` is an rpminfo object and
`ste:2` an rpminfo state. -/
def mixedKindRoot : Root :=
  { Objects := { Index := [("obj:1", ("dpkginfo_object", 0)), ("obj:2", ("rpminfo_object", 0))],
                 DpkgInfoObjects := [{ Name := some { Body := "openssl" } }] },
    States := { Index := [("ste:1", ("dpkginfo_state", 0)), ("ste:2", ("rpminfo_state", 0))],
                DpkgInfoStates := [{ EVR := some ⟨"1.1.1-1"⟩ }] } }

/-- The reference index is consistent: every position it gives for a dpkginfo object or a
dpkginfo state is in range for the table the translation indexes with it (the positions of
the variables are in range by construction). -/
def Root.consistent (root : Root) : Bool :=
  root.Objects.Index.all (fun e =>
      e.2.1 != "dpkginfo_object" || decide (e.2.2 < root.Objects.DpkgInfoObjects.length)) &&
    root.States.Index.all (fun e =>
      e.2.1 != "dpkginfo_state" || decide (e.2.2 < root.States.DpkgInfoStates.length))

/-- A document with one criterion whose test pairs `obj:1` with the state reference `ste:9`,
which is absent from the state index, and `obj:1` again with `ste:1`, which resolves to a
state with EVR `1.1.1-1`. -/
def lostStateRoot : Root :=
  { Definitions := [{ ID := "def:1", Criteria := .group "AND" [.leaf ⟨"tst:1"⟩] }],
    Tests := [("tst:1", ("dpkginfo_test",
      { ObjectRefs := [⟨"obj:1"⟩, ⟨"obj:1"⟩], StateRefs := [⟨"ste:9"⟩, ⟨"ste:1"⟩] }))],
    Objects := { Index := [("obj:1", ("dpkginfo_object", 0))],
                 DpkgInfoObjects := [{ Name := some { Body := "openssl" } }] },
    States := { Index := [("ste:1", ("dpkginfo_state", 0))],
                DpkgInfoStates := [{ EVR := some ⟨"1.1.1-1"⟩ }] } }

/-! ## The translation as a function to vulnerability values -/

/-- A vulnerability as a value: its record with the pointer cleared, and the package the
pointer refers to. -/
structure VulnValue where
  record : Vulnerability
  package : Option Package
  deriving DecidableEq, Repr

/-- The value of a vulnerability in a store. -/
def deref (heap : List Package) (v : Vulnerability) : VulnValue :=
  { record := { v with Package := none },
    package := v.Package.bind (fun a => heap[a]?) }

/-- The output of a state as a sequence of values. -/
def St.values (st : St) : List VulnValue :=
  st.vulns.map (deref st.heap)

/-- The output of a completed call as a sequence of values. -/
def Output.values (out : Output) : List VulnValue :=
  out.vulns.map (deref out.heap)

/-- The concatenation of two outcomes; the first fault wins. -/
def appendOutcome {β ε : Type} (a b : Except ε (List β)) : Except ε (List β) :=
  match a with
  | .error e => .error e
  | .ok vs =>
    match b with
    | .error e => .error e
    | .ok ws => .ok (vs ++ ws)

/-- The concatenation, in order, of the sequences `g` gives for the elements of a list; the
first fault ends it. -/
def collect {α β ε : Type} (g : α → Except ε (List β)) : List α → Except ε (List β)
  | [] => .ok []
  | x :: xs => appendOutcome (g x) (collect g xs)

/-- The value emitted for a written copy `w` and a name `n`: the copy, referring to the
package `n` of kind BINARY. -/
def mkValue (w : Vulnerability) (n : String) : VulnValue :=
  { record := { w with Package := none },
    package := some { Name := n, Kind := BINARY } }

/-- The fault of the state writes on a copy of `pv`, if any: a state without EVR, or a state
with an arch on a prototype without package. -/
def writeFault (state : Option DpkgInfoState) (pv : Vulnerability) : Option Fault :=
  match state with
  | none => none
  | some s =>
    match s.EVR with
    | none => some .nilDeref
    | some _ =>
      match s.Arch with
      | none => none
      | some _ =>
        match pv.Package with
        | none => some .nilDeref
        | some _ => none

/-- Expansion of one name, as values. -/
def nameValues (state : Option DpkgInfoState) (pv : Vulnerability) (n : String) :
    Except Fault (List VulnValue) :=
  match writeFault state pv with
  | some f => .error f
  | none => .ok [mkValue (stateWrites state pv) n]

/-- Expansion of one prototype, as values: one per resolved name, in the order of the
names. -/
def protoValues (root : Root) (object : DpkgInfoObject) (state : Option DpkgInfoState)
    (pv : Vulnerability) : Except Fault (List VulnValue) :=
  match resolveNames root object.Name with
  | .error f => .error f
  | .ok none => .ok []
  | .ok (some ns) => collect (nameValues state pv) ns

/-- Expansion of one pair, as values: prototype by prototype. -/
def expandValues (root : Root) (object : DpkgInfoObject) (state : Option DpkgInfoState)
    (protoVulns : List Vulnerability) : Except Fault (List VulnValue) :=
  match state with
  | some s =>
    if s.EVR.isNone then .ok []
    else collect (protoValues root object (some s)) protoVulns
  | none => collect (protoValues root object none) protoVulns

/-- The pair `i` of a test, as values. -/
def pairValues (root : Root) (noVersion : Bool) (objRefs : List ObjectRef)
    (stateRefs : List StateRef) (protoVulns : List Vulnerability) (i : Nat) :
    Except Fault (List VulnValue) :=
  match objRefs[i]? with
  | none => .error .indexOutOfRange
  | some objRef =>
    match dpkgObjectLookup root objRef.ObjectRef with
    | .error f => .error f
    | .ok (.error _) => .ok []
    | .ok (.ok object) =>
      match stateRefs[i]? with
      | none => expandValues root object none protoVulns
      | some stateRef =>
        match dpkgStateLookup root stateRef.StateRef with
        | .error f => .error f
        | .ok (.error _) =>
          if noVersion then expandValues root object none protoVulns else .ok []
        | .ok (.ok s) => expandValues root object (some s) protoVulns

/-- One criterion, as values: pair index by pair index. -/
def criterionValues (root : Root) (protoVulns : List Vulnerability) (ncris : Nat)
    (criterion : Criterion) : Except Fault (List VulnValue) :=
  match TestLookup root criterion.TestRef with
  | .error _ => .ok []
  | .ok test =>
    if ncris = 1 then
      collect (pairValues root true test.ObjectRefs test.StateRefs protoVulns)
        (List.range test.ObjectRefs.length)
    else if test.ObjectRefs.length = 1 ∧ test.StateRefs.length = 0 then
      .ok []
    else if test.ObjectRefs.length ≠ test.StateRefs.length then
      .ok []
    else
      collect (pairValues root false test.ObjectRefs test.StateRefs protoVulns)
        (List.range test.ObjectRefs.length)

/-- One definition, as values: flattened criterion by flattened criterion; a definition
whose factory call fails contributes the empty sequence. -/
def defValues (root : Root) (protoVulns : ProtoVulnsFunc) (d : Definition) :
    Except Fault (List VulnValue) :=
  match protoVulns d with
  | .error _ => .ok []
  | .ok pvs =>
    collect (criterionValues root pvs (walkCriterion d.Criteria).length)
      (walkCriterion d.Criteria)

/-- The translation of a list of definitions, as values: the concatenation, in document
order, of the outputs of the definitions. -/
def translateValues (root : Root) (protoVulns : ProtoVulnsFunc) (defs : List Definition) :
    Except Fault (List VulnValue) :=
  collect (defValues root protoVulns) defs

/-- The invariant of a run over a store of `base` packages that the prototypes point into:
the cache entries lie past `base` and hold exactly the package of their name and kind
BINARY, and every emitted vulnerability points to a cache entry. -/
structure St.Fresh (base : Nat) (st : St) : Prop where
  content : ∀ n a, List.lookup n st.pkgcache = some a →
    base ≤ a ∧ st.heap[a]? = some { Name := n, Kind := BINARY }
  pointed : ∀ v ∈ st.vulns, ∃ n a, List.lookup n st.pkgcache = some a ∧ v.Package = some a
  bound : base ≤ st.heap.length

/-- The outcome `r` of a step from the state `s` follows the values `o`: the same fault, or
a state that keeps the invariant and has appended exactly these values. -/
def Tracks (base : Nat) (r : Except Fault St) (s : St) (o : Except Fault (List VulnValue)) :
    Prop :=
  match o with
  | .error e => r = .error e
  | .ok vs => ∃ s1, r = .ok s1 ∧ St.Fresh base s1 ∧ s1.values = s.values ++ vs

/-- A factory that fails for the definition `def:2` and returns one prototype without a
package for every other definition. -/
def pickyProto : ProtoVulnsFunc := fun d =>
  if d.ID = "def:2" then .error (.factory "no template")
  else .ok [{ Updater := "test", Name := d.ID }]

/-- The definition `id` with the one criterion `tst`. -/
def defWith (id tst : String) : Definition :=
  { ID := id, Criteria := .group "AND" [.leaf ⟨tst⟩] }

/-- The tests, objects and states of `dedupRoot` under the definitions `defs`. -/
def dedupRootWith (defs : List Definition) : Root :=
  { dedupRoot with Definitions := defs }

/-! ## `updater/bodhi`: the updater set of a factory -/

namespace Bodhi

/-- The errors of the factory: its own (`errors.New`), those of the API client, of the
configuration callback and of `url.Parse`, and the refusal of the updater set. -/
inductive Error where
  | unconfigured
  | api (msg : String)
  | config (msg : String)
  | parse (msg : String)
  | exists (name : String)
  deriving DecidableEq, Repr

/-- Modelled from the spec: the type `release` is declared outside the sources at hand and
the spec is silent on it; the model keeps the two fields that `factory.go`, `updater.go` and
`factory_test.go` rely on, the name and the state of a release. -/
structure release where
  Name : String
  State : String
  deriving DecidableEq, Repr

/-- Modelled from the spec: `release.Pending` (declared outside the sources at hand) tells
whether the release is in the state `pending`. -/
def release.Pending (r : release) : Bool := r.State == "pending"

/-- Modelled from the spec: `release.String` (declared outside the sources at hand) prints a
release as its name, which is what `TestFactory` expects of `Updater.Name`. -/
def release.String (r : release) : String := r.Name

/-- The record `Updater` (updater.go:27-34); the URL and the client are kept by name. -/
structure Updater where
  release : release
  root : Option String
  c : Option String
  deriving DecidableEq, Repr

/-- Source `Updater.Name` (updater.go:71). -/
def Updater.Name (u : Updater) : String := "bodhi-" ++ u.release.String

/-- Modelled from the spec: `driver.UpdaterSet` (declared outside the sources at hand) is a
set of updaters keyed by name. -/
structure UpdaterSet where
  set : List (String × Updater)
  deriving DecidableEq, Repr

/-- Modelled from the spec: `driver.NewUpdaterSet` gives the empty set. -/
def NewUpdaterSet : UpdaterSet := { set := [] }

/-- Modelled from the spec: `UpdaterSet.Add` adds an updater under its name and reports an
error, leaving the set as it is, when the name is taken. -/
def UpdaterSet.Add (s : UpdaterSet) (u : Updater) : UpdaterSet × Option Error :=
  match List.lookup u.Name s.set with
  | some _ => (s, some (.exists u.Name))
  | none => ({ set := s.set ++ [(u.Name, u)] }, none)

/-- Modelled from the spec: `UpdaterSet.Updaters` lists the updaters of the set. -/
def UpdaterSet.Updaters (s : UpdaterSet) : List Updater := s.set.map Prod.snd

/-- The record `Factory` (factory.go:22-25). -/
structure Factory where
  root : Option String := none
  c : Option String := none
  deriving DecidableEq, Repr

/-- The record `FactoryConfig` (factory.go:28-30). -/
structure FactoryConfig where
  API : String := ""
  deriving DecidableEq, Repr

/-- The body of the loop of `UpdaterSet` (factory.go:47-64): a pending release is skipped,
an error of `Add` is logged and dropped. -/
def addRelease (f : Factory) (s : UpdaterSet) (r : release) : UpdaterSet :=
  if r.Pending then s
  else (s.Add { release := r, c := f.c, root := f.root }).1

/-- Source `Factory.UpdaterSet` (factory.go:33-67); `GetReleases` is the answer of the API
to the client made of the root and the HTTP client of the factory. -/
def Factory.UpdaterSet (f : Factory)
    (GetReleases : Option String → Option String → Except Error (List release)) :
    UpdaterSet × Option Error :=
  if f.root.isNone || f.c.isNone then
    (NewUpdaterSet, some .unconfigured)
  else
    match GetReleases f.root f.c with
    | .error err => (NewUpdaterSet, some err)
    | .ok rs => (rs.foldl (addRelease f) NewUpdaterSet, none)

/-- Source `Factory.Configure` (factory.go:70-94): the factory after the call and the error
returned; `cf` is the outcome of the configuration callback, `parse` is `url.Parse` and
`defaultAPI` the default root. -/
def Factory.Configure (f : Factory) (cf : Except Error FactoryConfig) (c : Option String)
    (parse : String → Except Error String) (defaultAPI : Option String) :
    Factory × Option Error :=
  match cf with
  | .error err => ({ f with root := defaultAPI }, some err)
  | .ok cfg =>
    if cfg.API != "" then
      match parse cfg.API with
      | .error err => ({ f with root := defaultAPI }, some err)
      | .ok u => ({ root := some u, c := c }, none)
    else
      ({ root := defaultAPI, c := c }, none)

/-- A sample of releases: two current ones, a pending one and an archived one. -/
def sampleReleases : List release :=
  [⟨"F33", "archived"⟩, ⟨"F34", "current"⟩, ⟨"F35", "pending"⟩, ⟨"EPEL-8", "current"⟩]

/-- A server that answers every client with `sampleReleases`. -/
def sampleAPI : Option String → Option String → Except Error (List release) :=
  fun _ _ => .ok sampleReleases

end Bodhi

/-! ## `scanner/gobin`: packages of a Go executable

Go strings are modelled as Lean strings whose characters stand for the bytes of the Go
string: `len(m)` is the number of characters and `m[i]` the `i`-th one. -/

namespace Gobin

/-- The library function `strings.Split(s, sep)` for a one-byte separator, on the characters
of `s`: the pieces between the separators, one more than there are separators. -/
def splitOn (sep : Char) : List Char → List (List Char)
  | [] => [[]]
  | c :: cs =>
    if c = sep then [] :: splitOn sep cs
    else
      match splitOn sep cs with
      | [] => [[c]]
      | w :: ws => (c :: w) :: ws

/-- An executable (`exe`, exe.go:19-30) as far as `Info` and `Scan` use it: its name, and
what `e.header` followed by `e.readHeader` yield, the version and the module string or an
error. -/
structure exe where
  name : String
  readHeader : Except String (String × String)

/-- Source `exe.Info` (exe.go:54-75); a nil module list is `[]`. -/
def exe.Info (e : exe) : Except String (String × List (List String)) :=
  match e.readHeader with
  | .error err => .error err
  | .ok (ver, m) =>
    if m.data.length < 33 || m.data[m.data.length - 17]? != some '\n' then
      .ok (ver, [])
    else
      let body := (m.data.drop 16).take (m.data.length - 32)
      .ok (ver, (splitOn '\n' body).map (fun l => (splitOn '\t' l).map String.mk))

/-- The package emitted for a module entry (gobin.go:159-164). -/
def modulePackage (name n v : String) : Package :=
  { Kind := BINARY, PackageDB := "go:" ++ name, Name := n, Version := v }

/-- The package emitted for the runtime (gobin.go:136-141). -/
def runtimePackage (name ver : String) : Package :=
  { Kind := BINARY, Name := "runtime", Version := ver, PackageDB := "go:" ++ name }

/-- The body of the loop over module entries (gobin.go:146-166): the switch on `l[0]`, and
for `mod` and `dep` the accesses `l[1]` and `l[2]`. -/
def scanEntry (name : String) (out : List Package) (l : List String) :
    Except Fault (List Package) :=
  match l[0]? with
  | none => .error .indexOutOfRange
  | some k =>
    if k = "path" then .ok out
    else if k = "mod" ∨ k = "dep" then
      match l[1]?, l[2]? with
      | some n, some v => .ok (out ++ [modulePackage name n v])
      | _, _ => .error .indexOutOfRange
    else .ok out

/-- The body of the loop over executables (gobin.go:113-170). -/
def scanExe (out : List Package) (e : exe) : Except Fault (List Package) :=
  match e.Info with
  | .error _ => .ok out
  | .ok (ver, mod) =>
    if ver = "" then .ok out
    else if mod.length = 0 then .ok out
    else mod.foldlM (scanEntry e.name) (out ++ [runtimePackage e.name ver])

/-- The handling of the executables the tar reader hands over, in order (the second
goroutine of `Scan`, gobin.go:112-172). -/
def Scan (exes : List exe) : Except Fault (List Package) :=
  exes.foldlM scanExe []

/-- What a well-formed entry emits: `mod` and `dep` give a package, anything else nothing. -/
def entryPackage (name : String) (l : List String) : Option Package :=
  match l with
  | k :: n :: v :: _ => if k = "mod" ∨ k = "dep" then some (modulePackage name n v) else none
  | _ => none

/-- An entry that `Scan` reads without leaving its fields: it has a first field, and three
fields when the first is `mod` or `dep`. -/
def entryOk (l : List String) : Bool :=
  match l with
  | [] => false
  | k :: rest => if k = "mod" ∨ k = "dep" then decide (2 ≤ rest.length) else true

/-- An executable built with modules: a path line, a mod line, two dep lines. -/
def goodExe : exe :=
  { name := "bin/app",
    readHeader := .ok ("go1.16",
      "0123456789abcdef" ++ "path\tcmd/app\nmod\texample.com/app\t(devel)\t\n" ++
      "dep\tgithub.com/a/b\tv1.2.3\th1:x\ndep\tgithub.com/c/d\tv0.1.0\th1:y\n" ++
      "fedcba9876543210") }

/-- An executable whose module string has a `mod` line without further fields. -/
def shortModExe : exe :=
  { name := "bin/app",
    readHeader := .ok ("go1.16", "0123456789abcdef" ++ "mod\n" ++ "fedcba9876543210") }

end Gobin

/-- The document without the object `oref`: its ID is taken out of the object index, so a
reference to it is not found and its pairs are skipped. -/
def withoutObject (root : Root) (oref : String) : Root :=
  { root with
    Objects := { root.Objects with
      Index := root.Objects.Index.filter (fun e => e.1 != oref) } }

/-! ## The translation as a function to emissions -/

/-- An emission of the run: the written copy of a prototype and the package name it was
resolved for. -/
structure Emission where
  copy : Vulnerability
  name : String
  deriving DecidableEq, Repr

/-- Expansion of one name, as emissions: the copy after the state writes, for that name. -/
def nameEmits (state : Option DpkgInfoState) (pv : Vulnerability) (n : String) :
    Except Fault (List Emission) :=
  match writeFault state pv with
  | some f => .error f
  | none => .ok [{ copy := stateWrites state pv, name := n }]

/-- Expansion of one prototype, as emissions: one per resolved name. -/
def protoEmits (root : Root) (object : DpkgInfoObject) (state : Option DpkgInfoState)
    (pv : Vulnerability) : Except Fault (List Emission) :=
  match resolveNames root object.Name with
  | .error f => .error f
  | .ok none => .ok []
  | .ok (some ns) => collect (nameEmits state pv) ns

/-- Expansion of one pair, as emissions. -/
def expandEmits (root : Root) (object : DpkgInfoObject) (state : Option DpkgInfoState)
    (protoVulns : List Vulnerability) : Except Fault (List Emission) :=
  match state with
  | some s =>
    if s.EVR.isNone then .ok []
    else collect (protoEmits root object (some s)) protoVulns
  | none => collect (protoEmits root object none) protoVulns

/-- The pair `i` of a test, as emissions. -/
def pairEmits (root : Root) (noVersion : Bool) (objRefs : List ObjectRef)
    (stateRefs : List StateRef) (protoVulns : List Vulnerability) (i : Nat) :
    Except Fault (List Emission) :=
  match objRefs[i]? with
  | none => .error .indexOutOfRange
  | some objRef =>
    match dpkgObjectLookup root objRef.ObjectRef with
    | .error f => .error f
    | .ok (.error _) => .ok []
    | .ok (.ok object) =>
      match stateRefs[i]? with
      | none => expandEmits root object none protoVulns
      | some stateRef =>
        match dpkgStateLookup root stateRef.StateRef with
        | .error f => .error f
        | .ok (.error _) =>
          if noVersion then expandEmits root object none protoVulns else .ok []
        | .ok (.ok s) => expandEmits root object (some s) protoVulns

/-- One criterion, as emissions. -/
def criterionEmits (root : Root) (protoVulns : List Vulnerability) (ncris : Nat)
    (criterion : Criterion) : Except Fault (List Emission) :=
  match TestLookup root criterion.TestRef with
  | .error _ => .ok []
  | .ok test =>
    if ncris = 1 then
      collect (pairEmits root true test.ObjectRefs test.StateRefs protoVulns)
        (List.range test.ObjectRefs.length)
    else if test.ObjectRefs.length = 1 ∧ test.StateRefs.length = 0 then
      .ok []
    else if test.ObjectRefs.length ≠ test.StateRefs.length then
      .ok []
    else
      collect (pairEmits root false test.ObjectRefs test.StateRefs protoVulns)
        (List.range test.ObjectRefs.length)

/-- One definition, as emissions. -/
def defEmits (root : Root) (protoVulns : ProtoVulnsFunc) (d : Definition) :
    Except Fault (List Emission) :=
  match protoVulns d with
  | .error _ => .ok []
  | .ok pvs =>
    collect (criterionEmits root pvs (walkCriterion d.Criteria).length)
      (walkCriterion d.Criteria)

/-- The emissions of a run, in order: for every vulnerability the run appends, the copy it
wrote and the package name it resolved. -/
def translateEmits (root : Root) (protoVulns : ProtoVulnsFunc) (defs : List Definition) :
    Except Fault (List Emission) :=
  collect (defEmits root protoVulns) defs

/-- The output of the state `s` is the emissions `es`, each pointing to the cache entry of
the name it was resolved for. -/
structure Emits (s : St) (es : List Emission) : Prop where
  vulns : s.vulns = es.map (fun e => emitted s.pkgcache e.copy e.name)
  cached : ∀ e ∈ es, ∃ a, List.lookup e.name s.pkgcache = some a

/-- The outcome `r` of a step taken after the emissions `pre` follows the emissions `o`: the
same fault, or a state whose output is `pre` followed by `o`. -/
def TracksEmits (r : Except Fault St) (pre : List Emission)
    (o : Except Fault (List Emission)) : Prop :=
  match o with
  | .error f => r = .error f
  | .ok es => ∃ s1, r = .ok s1 ∧ Emits s1 (pre ++ es)

/-- Three criteria of one definition that resolve to `bash`, `openssl` and `bash` again. -/
def bashOpensslRoot : Root :=
  { Definitions :=
      [{ ID := "def:1",
         Criteria := .group "OR" [.leaf ⟨"tst:1"⟩, .leaf ⟨"tst:2"⟩, .leaf ⟨"tst:3"⟩] }],
    Tests := [("tst:1", ("dpkginfo_test",
                 { ObjectRefs := [⟨"obj:1"⟩], StateRefs := [⟨"ste:1"⟩] })),
              ("tst:2", ("dpkginfo_test",
                 { ObjectRefs := [⟨"obj:2"⟩], StateRefs := [⟨"ste:1"⟩] })),
              ("tst:3", ("dpkginfo_test",
                 { ObjectRefs := [⟨"obj:1"⟩], StateRefs := [⟨"ste:2"⟩] }))],
    Objects := { Index := [("obj:1", ("dpkginfo_object", 0)), ("obj:2", ("dpkginfo_object", 1))],
                 DpkgInfoObjects := [{ Name := some { Body := "bash" } },
                                     { Name := some { Body := "openssl" } }] },
    States := { Index := [("ste:1", ("dpkginfo_state", 0)), ("ste:2", ("dpkginfo_state", 1))],
                DpkgInfoStates := [{ EVR := some ⟨"1.0"⟩ }, { EVR := some ⟨"2.0"⟩ }] } }

/-- The state `run` reaches on `bashOpensslRoot`: two packages, three vulnerabilities, the
first and the third pointing to the package `bash`. -/
def bashOpensslFinal : St :=
  { heap := [{ Name := "bash", Kind := BINARY }, { Name := "openssl", Kind := BINARY }],
    pkgcache := [("openssl", 1), ("bash", 0)],
    vulns := [{ Updater := "test", Name := "def:1", Package := some 0,
                FixedInVersion := "1.0" },
              { Updater := "test", Name := "def:1", Package := some 1,
                FixedInVersion := "1.0" },
              { Updater := "test", Name := "def:1", Package := some 0,
                FixedInVersion := "2.0" }] }

/-! ## Lemmas -/

theorem foldlM_preserves {σ α ε : Type} (P : σ → Prop) (f : σ → α → Except ε σ)
    (hf : ∀ s x s', P s → f s x = .ok s' → P s') :
    ∀ (xs : List α) (s s' : σ), P s → xs.foldlM f s = .ok s' → P s'
  | [], s, s', hs, h => by
    simp only [List.foldlM_nil, pure, Except.pure, Except.ok.injEq] at h
    exact h ▸ hs
  | x :: xs, s, s', hs, h => by
    simp only [List.foldlM_cons, bind, Except.bind] at h
    cases hx : f s x with
    | error e => simp [hx] at h
    | ok s1 =>
      simp only [hx] at h
      exact foldlM_preserves P f hf xs s1 s' (hf s x s1 hs hx) h

theorem foldlM_ok_of_id {σ α ε : Type} (f : σ → α → Except ε σ) :
    ∀ (xs : List α) (s : σ), (∀ x ∈ xs, f s x = .ok s) → xs.foldlM f s = .ok s
  | [], s, _ => rfl
  | x :: xs, s, h => by
    have hx : f s x = .ok s := h x (List.mem_cons_self x xs)
    simp only [List.foldlM_cons, bind, Except.bind, hx]
    exact foldlM_ok_of_id f xs s (fun y hy => h y (List.mem_cons_of_mem x hy))

theorem foldlM_congr_fun {σ α ε : Type} (f g : σ → α → Except ε σ) :
    ∀ (xs : List α) (s : σ), (∀ x ∈ xs, ∀ t, f t x = g t x) → xs.foldlM f s = xs.foldlM g s
  | [], _, _ => rfl
  | x :: xs, s, h => by
    simp only [List.foldlM_cons, bind, Except.bind, h x (List.mem_cons_self x xs) s]
    cases g s x with
    | error e => rfl
    | ok s1 => exact foldlM_congr_fun f g xs s1 (fun y hy => h y (List.mem_cons_of_mem x hy))

theorem setArch_length (heap : List Package) (p : Nat) (a : String) :
    (setArch heap p a).length = heap.length := by
  simp [setArch]

theorem setArch_get (heap : List Package) (p : Nat) (x : String) (a : Nat) (q : Package)
    (h : (setArch heap p x)[a]? = some q) :
    ∃ q0, heap[a]? = some q0 ∧ q0.Name = q.Name := by
  unfold setArch at h
  rw [List.getElem?_modify] at h
  cases hq : heap[a]? with
  | none => simp [hq] at h
  | some q0 =>
    refine ⟨q0, rfl, ?_⟩
    simp only [hq, Option.map_eq_map, Option.map_some', Option.some.injEq] at h
    by_cases hpa : p = a
    · simp only [hpa, if_true] at h
      rw [← h]
    · simp only [hpa, if_false] at h
      rw [← h]

theorem pkgName_setArch (heap : List Package) (p : Nat) (x : String) (a : Nat) :
    pkgName (setArch heap p x) a = pkgName heap a := by
  unfold pkgName setArch
  rw [List.getElem?_modify]
  cases heap[a]? with
  | none => rfl
  | some q0 =>
    by_cases hpa : p = a <;> simp [hpa]

/-- The state writes preserve the length of the store and the name at every position. -/
theorem applyState_heap (state : Option DpkgInfoState) (pv v : Vulnerability)
    (heap heap1 : List Package) (h : applyState state pv heap = .ok (v, heap1)) :
    heap1.length = heap.length ∧ (∀ a, pkgName heap1 a = pkgName heap a) ∧
      (∀ (a : Nat) (q : Package), heap1[a]? = some q →
        ∃ q0, heap[a]? = some q0 ∧ q0.Name = q.Name) := by
  have hid : heap1 = heap ∨ ∃ p x, heap1 = setArch heap p x := by
    cases state with
    | none =>
      simp only [applyState, Except.ok.injEq, Prod.mk.injEq] at h
      exact Or.inl h.2.symm
    | some s =>
      cases hE : s.EVR with
      | none => simp [applyState, hE] at h
      | some evr =>
        cases hA : s.Arch with
        | none =>
          simp only [applyState, hE, hA, Except.ok.injEq, Prod.mk.injEq] at h
          exact Or.inl h.2.symm
        | some arch =>
          cases hP : pv.Package with
          | none => simp [applyState, hE, hA, hP] at h
          | some p =>
            simp only [applyState, hE, hA, hP, Except.ok.injEq, Prod.mk.injEq] at h
            exact Or.inr ⟨p, arch.Body, h.2.symm⟩
  rcases hid with rfl | ⟨p, x, rfl⟩
  · exact ⟨rfl, fun _ => rfl, fun a q hq => ⟨q, hq, rfl⟩⟩
  · exact ⟨setArch_length _ _ _, fun a => pkgName_setArch _ _ _ a,
      fun a q hq => setArch_get _ _ _ a q hq⟩

theorem lookup_cons_self (n : String) (a : Nat) (c : List (String × Nat)) :
    List.lookup n ((n, a) :: c) = some a := by
  simp [List.lookup_cons]

theorem lookup_cons_ne (m n : String) (a : Nat) (c : List (String × Nat)) (h : m ≠ n) :
    List.lookup m ((n, a) :: c) = List.lookup m c := by
  have : (m == n) = false := by simpa using h
  simp [List.lookup_cons, this]

theorem lookup_none_not_mem (n : String) (c : List (String × Nat))
    (h : List.lookup n c = none) : n ∉ c.map Prod.fst := by
  intro hm
  rw [List.lookup_eq_none_iff] at h
  obtain ⟨p, hp, hpn⟩ := List.mem_map.mp hm
  have := h p hp
  simp [hpn] at this

theorem pkgName_append_lt (heap : List Package) (q : Package) (a : Nat) (n : String)
    (h : pkgName heap a = some n) : pkgName (heap ++ [q]) a = some n := by
  unfold pkgName at *
  cases hq : heap[a]? with
  | none => simp [hq] at h
  | some q0 =>
    have hlt : a < heap.length := by
      by_contra hge
      rw [List.getElem?_eq_none (Nat.le_of_not_lt hge)] at hq
      cases hq
    rw [List.getElem?_append_left hlt, hq]
    simpa [hq] using h

/-- The cache step keeps the invariant, given a store that kept lengths and names. -/
theorem attachPackage_inv (base : Nat) (vuln : Vulnerability) (heap1 : List Package) (st : St)
    (n : String) (hinv : St.Inv base st)
    (hname : ∀ a, pkgName heap1 a = pkgName st.heap a)
    (hget : ∀ (a : Nat) (q : Package), heap1[a]? = some q →
      ∃ q0, st.heap[a]? = some q0 ∧ q0.Name = q.Name) :
    St.Inv base (attachPackage vuln heap1 st n) := by
  unfold attachPackage
  cases hl : List.lookup n st.pkgcache with
  | none =>
    simp only
    refine ⟨?_, ?_, ?_, ?_⟩
    · intro m a hm
      by_cases hmn : m = n
      · subst hmn
        rw [lookup_cons_self] at hm
        cases hm
        simp [pkgName]
      · rw [lookup_cons_ne m n _ _ hmn] at hm
        exact pkgName_append_lt heap1 _ a m ((hname a).trans (hinv.named m a hm))
    · intro v hv
      rcases List.mem_append.mp hv with hv | hv
      · obtain ⟨m, a, hm, hva⟩ := hinv.cached v hv
        have hmn : m ≠ n := by
          intro h
          rw [h, hl] at hm
          cases hm
        exact ⟨m, a, by rw [lookup_cons_ne m n _ _ hmn]; exact hm, hva⟩
      · simp only [List.mem_singleton] at hv
        exact ⟨n, heap1.length, lookup_cons_self _ _ _, by rw [hv]⟩
    · simp only [List.map_cons, List.nodup_cons]
      exact ⟨lookup_none_not_mem n _ hl, hinv.nodup⟩
    · intro a p hb hp
      by_cases hlt : a < heap1.length
      · rw [List.getElem?_append_left hlt] at hp
        obtain ⟨q0, hq0, hq0n⟩ := hget a p hp
        have hc := hinv.created a q0 hb hq0
        rw [hq0n] at hc
        have hne : p.Name ≠ n := by
          intro h
          rw [h, hl] at hc
          cases hc
        rw [lookup_cons_ne _ _ _ _ hne]
        exact hc
      · have hge : heap1.length ≤ a := Nat.le_of_not_lt hlt
        rcases Nat.eq_or_lt_of_le hge with heq | hgt
        · subst heq
          simp only [List.getElem?_concat_length, Option.some.injEq] at hp
          rw [← hp]
          exact lookup_cons_self _ _ _
        · rw [List.getElem?_eq_none (by simp; omega)] at hp
          cases hp
  | some pkg =>
    simp only
    refine ⟨?_, ?_, hinv.nodup, ?_⟩
    · intro m a hm
      exact (hname a).trans (hinv.named m a hm)
    · intro v hv
      rcases List.mem_append.mp hv with hv | hv
      · exact hinv.cached v hv
      · simp only [List.mem_singleton] at hv
        exact ⟨n, pkg, hl, by rw [hv]⟩
    · intro a p hb hp
      obtain ⟨q0, hq0, hq0n⟩ := hget a p hp
      have hc := hinv.created a q0 hb hq0
      rw [hq0n] at hc
      exact hc

theorem perName_inv (base : Nat) (state : Option DpkgInfoState) (pv : Vulnerability)
    (st : St) (n : String) (st1 : St) (hinv : St.Inv base st)
    (h : perName state pv st n = .ok st1) : St.Inv base st1 := by
  unfold perName at h
  cases ha : applyState state pv st.heap with
  | error f => simp [ha] at h
  | ok r =>
    obtain ⟨v, heap1⟩ := r
    simp only [ha, Except.ok.injEq] at h
    obtain ⟨_, hname, hget⟩ := applyState_heap state pv v st.heap heap1 ha
    rw [← h]
    exact attachPackage_inv base v heap1 st n hinv hname hget

theorem perProto_inv (base : Nat) (root : Root) (object : DpkgInfoObject)
    (state : Option DpkgInfoState) (st : St) (pv : Vulnerability) (st1 : St)
    (hinv : St.Inv base st) (h : perProto root object state st pv = .ok st1) :
    St.Inv base st1 := by
  unfold perProto at h
  cases hr : resolveNames root object.Name with
  | error f => simp [hr] at h
  | ok r =>
    cases r with
    | none =>
      simp only [hr, Except.ok.injEq] at h
      exact h ▸ hinv
    | some ns =>
      simp only [hr] at h
      exact foldlM_preserves (St.Inv base) (perName state pv)
        (fun s x s1 hs hx => perName_inv base state pv s x s1 hs hx) ns st st1 hinv h

theorem expandPair_inv (base : Nat) (root : Root) (object : DpkgInfoObject)
    (state : Option DpkgInfoState) (pvs : List Vulnerability) (st st1 : St)
    (hinv : St.Inv base st) (h : expandPair root object state pvs st = .ok st1) :
    St.Inv base st1 := by
  have step : ∀ sto, ∀ s x s1, St.Inv base s → perProto root object sto s x = .ok s1 →
      St.Inv base s1 := fun sto s x s1 hs hx => perProto_inv base root object sto s x s1 hs hx
  unfold expandPair at h
  cases state with
  | none => exact foldlM_preserves _ _ (step none) pvs st st1 hinv h
  | some s =>
    simp only at h
    split at h
    · simp only [Except.ok.injEq] at h
      exact h ▸ hinv
    · exact foldlM_preserves _ _ (step (some s)) pvs st st1 hinv h

theorem perPair_inv (base : Nat) (root : Root) (noVersion : Bool) (objRefs : List ObjectRef)
    (stateRefs : List StateRef) (pvs : List Vulnerability) (st : St) (i : Nat) (st1 : St)
    (hinv : St.Inv base st)
    (h : perPair root noVersion objRefs stateRefs pvs st i = .ok st1) : St.Inv base st1 := by
  unfold perPair at h
  cases ho : objRefs[i]? with
  | none => simp [ho] at h
  | some objRef =>
    simp only [ho] at h
    cases hol : dpkgObjectLookup root objRef.ObjectRef with
    | error f => simp [hol] at h
    | ok r =>
      cases r with
      | error e =>
        simp only [hol, Except.ok.injEq] at h
        exact h ▸ hinv
      | ok object =>
        simp only [hol] at h
        cases hs : stateRefs[i]? with
        | none =>
          simp only [hs] at h
          exact expandPair_inv base root object none pvs st st1 hinv h
        | some stateRef =>
          simp only [hs] at h
          cases hsl : dpkgStateLookup root stateRef.StateRef with
          | error f => simp [hsl] at h
          | ok r =>
            cases r with
            | error e =>
              simp only [hsl] at h
              split at h
              · exact expandPair_inv base root object none pvs st st1 hinv h
              · simp only [Except.ok.injEq] at h
                exact h ▸ hinv
            | ok s =>
              simp only [hsl] at h
              exact expandPair_inv base root object (some s) pvs st st1 hinv h

theorem perCriterion_inv (base : Nat) (root : Root) (pvs : List Vulnerability) (ncris : Nat)
    (st : St) (c : Criterion) (st1 : St) (hinv : St.Inv base st)
    (h : perCriterion root pvs ncris st c = .ok st1) : St.Inv base st1 := by
  unfold perCriterion at h
  cases ht : TestLookup root c.TestRef with
  | error e =>
    simp only [ht, Except.ok.injEq] at h
    exact h ▸ hinv
  | ok test =>
    simp only [ht] at h
    split at h
    · exact foldlM_preserves _ _
        (fun s x s1 hs hx => perPair_inv base root true _ _ pvs s x s1 hs hx) _ st st1 hinv h
    · split at h
      · simp only [Except.ok.injEq] at h
        exact h ▸ hinv
      · split at h
        · simp only [Except.ok.injEq] at h
          exact h ▸ hinv
        · exact foldlM_preserves _ _
            (fun s x s1 hs hx => perPair_inv base root false _ _ pvs s x s1 hs hx) _ st st1
            hinv h

theorem perDef_inv (base : Nat) (root : Root) (f : ProtoVulnsFunc) (st : St) (d : Definition)
    (st1 : St) (hinv : St.Inv base st) (h : perDef root f st d = .ok st1) :
    St.Inv base st1 := by
  unfold perDef at h
  cases hf : f d with
  | error e =>
    simp only [hf, Except.ok.injEq] at h
    exact h ▸ hinv
  | ok pvs =>
    simp only [hf] at h
    exact foldlM_preserves _ _
      (fun s x s1 hs hx => perCriterion_inv base root pvs _ s x s1 hs hx) _ st st1 hinv h

theorem init_inv (heap : List Package) : St.Inv heap.length (St.init heap) := by
  refine ⟨?_, ?_, ?_, ?_⟩
  · intro n a h
    simp [St.init] at h
  · intro v hv
    simp [St.init] at hv
  · simp [St.init]
  · intro a p hb hp
    simp only [St.init] at hp
    rw [List.getElem?_eq_none hb] at hp
    cases hp

theorem run_inv (root : Root) (f : ProtoVulnsFunc) (heap : List Package) (st : St)
    (h : run root f heap = .ok st) : St.Inv heap.length st :=
  foldlM_preserves _ _ (fun s x s1 hs hx => perDef_inv heap.length root f s x s1 hs hx)
    root.Definitions (St.init heap) st (init_inv heap) h

/-! ## What one expansion appends: lemmas -/

theorem CacheLe.refl (c : List (String × Nat)) : CacheLe c c := fun _ _ h => h

theorem CacheLe.trans {c0 c1 c2 : List (String × Nat)} (h01 : CacheLe c0 c1)
    (h12 : CacheLe c1 c2) : CacheLe c0 c2 := fun n a h => h12 n a (h01 n a h)

theorem emitted_mono {c0 c1 : List (String × Nat)} (hle : CacheLe c0 c1) (w : Vulnerability)
    (n : String) (a : Nat) (h : List.lookup n c0 = some a) :
    emitted c0 w n = emitted c1 w n := by
  simp [emitted, h, hle n a h]

/-- When the state writes succeed, the written copy is `stateWrites`. -/
theorem applyState_vuln (state : Option DpkgInfoState) (pv : Vulnerability)
    (heap : List Package) (r : Vulnerability × List Package)
    (h : applyState state pv heap = .ok r) : r.1 = stateWrites state pv := by
  cases state with
  | none =>
    simp only [applyState, Except.ok.injEq] at h
    rw [← h]
    rfl
  | some s =>
    cases hE : s.EVR with
    | none => simp [applyState, hE] at h
    | some evr =>
      cases hA : s.Arch with
      | none =>
        simp only [applyState, hE, hA, Except.ok.injEq] at h
        rw [← h]
        simp [stateWrites, hE, hA]
      | some arch =>
        cases hP : pv.Package with
        | none => simp [applyState, hE, hA, hP] at h
        | some p =>
          simp only [applyState, hE, hA, hP, Except.ok.injEq] at h
          rw [← h]
          simp [stateWrites, hE, hA, hP]

/-- The state writes succeed when the state, if any, has an EVR and, if it has an arch, the
prototype has a package to receive it. -/
theorem applyState_ok (state : Option DpkgInfoState) (pv : Vulnerability)
    (heap : List Package)
    (hevr : ∀ s, state = some s → s.EVR ≠ none)
    (hpkg : ∀ s, state = some s → s.Arch ≠ none → pv.Package ≠ none) :
    ∃ r, applyState state pv heap = .ok r := by
  cases state with
  | none => exact ⟨_, rfl⟩
  | some s =>
    cases hE : s.EVR with
    | none => exact absurd hE (hevr s rfl)
    | some evr =>
      cases hA : s.Arch with
      | none => exact ⟨_, by simp only [applyState, hE, hA]; rfl⟩
      | some arch =>
        cases hP : pv.Package with
        | none => exact absurd hP (hpkg s rfl (by simp [hA]))
        | some p => exact ⟨_, by simp only [applyState, hE, hA, hP]; rfl⟩

theorem attachPackage_spec (w : Vulnerability) (heap1 : List Package) (st : St) (n : String) :
    (∃ a, List.lookup n (attachPackage w heap1 st n).pkgcache = some a) ∧
      (attachPackage w heap1 st n).vulns =
        st.vulns ++ [emitted (attachPackage w heap1 st n).pkgcache w n] ∧
      CacheLe st.pkgcache (attachPackage w heap1 st n).pkgcache := by
  unfold attachPackage
  cases hl : List.lookup n st.pkgcache with
  | none =>
    refine ⟨⟨heap1.length, lookup_cons_self _ _ _⟩, ?_, ?_⟩
    · simp [emitted, lookup_cons_self]
    · intro m a hm
      have hmn : m ≠ n := by
        intro h
        rw [h, hl] at hm
        cases hm
      simp only
      rw [lookup_cons_ne m n _ _ hmn]
      exact hm
  | some pkg =>
    refine ⟨⟨pkg, hl⟩, ?_, CacheLe.refl _⟩
    simp [emitted, hl]

/-- What the loop over names appends: one vulnerability per name, in order, each the
written copy pointing to the cache entry of its name. -/
theorem perName_fold (state : Option DpkgInfoState) (pv : Vulnerability)
    (hevr : ∀ s, state = some s → s.EVR ≠ none)
    (hpkg : ∀ s, state = some s → s.Arch ≠ none → pv.Package ≠ none) :
    ∀ (ns : List String) (st : St),
      ∃ st1, ns.foldlM (perName state pv) st = .ok st1 ∧
        CacheLe st.pkgcache st1.pkgcache ∧
        (∀ n ∈ ns, ∃ a, List.lookup n st1.pkgcache = some a) ∧
        st1.vulns = st.vulns ++ ns.map (emitted st1.pkgcache (stateWrites state pv))
  | [], st => ⟨st, rfl, CacheLe.refl _, by simp, by simp⟩
  | n :: ns, st => by
    obtain ⟨r, hr⟩ := applyState_ok state pv st.heap hevr hpkg
    have hw := applyState_vuln state pv st.heap r hr
    obtain ⟨w, heap1⟩ := r
    simp only at hw
    subst hw
    have hstep : perName state pv st n =
        .ok (attachPackage (stateWrites state pv) heap1 st n) := by
      simp [perName, hr]
    obtain ⟨⟨a0, ha0⟩, hv0, hle0⟩ := attachPackage_spec (stateWrites state pv) heap1 st n
    obtain ⟨st1, hfold, hle1, hall, hv1⟩ :=
      perName_fold state pv hevr hpkg ns (attachPackage (stateWrites state pv) heap1 st n)
    refine ⟨st1, ?_, CacheLe.trans hle0 hle1, ?_, ?_⟩
    · simp only [List.foldlM_cons, bind, Except.bind, hstep]
      exact hfold
    · intro m hm
      rcases List.mem_cons.mp hm with rfl | hm
      · exact ⟨a0, hle1 _ _ ha0⟩
      · exact hall m hm
    · rw [hv1, hv0, emitted_mono hle1 _ n a0 ha0]
      simp

/-- What a completed loop over names has appended. -/
theorem perName_fold_ok (state : Option DpkgInfoState) (pv : Vulnerability) :
    ∀ (ns : List String) (st st1 : St), ns.foldlM (perName state pv) st = .ok st1 →
      CacheLe st.pkgcache st1.pkgcache ∧
        (∀ n ∈ ns, ∃ a, List.lookup n st1.pkgcache = some a) ∧
        st1.vulns = st.vulns ++ ns.map (emitted st1.pkgcache (stateWrites state pv))
  | [], st, st1, h => by
    simp only [List.foldlM_nil, pure, Except.pure, Except.ok.injEq] at h
    subst h
    exact ⟨CacheLe.refl _, by simp, by simp⟩
  | n :: ns, st, st1, h => by
    simp only [List.foldlM_cons, bind, Except.bind] at h
    cases hstep : perName state pv st n with
    | error f => simp [hstep] at h
    | ok st0 =>
      simp only [hstep] at h
      unfold perName at hstep
      cases hr : applyState state pv st.heap with
      | error f => simp [hr] at hstep
      | ok r =>
        have hw := applyState_vuln state pv st.heap r hr
        obtain ⟨w, heap1⟩ := r
        simp only at hw
        subst hw
        simp only [hr, Except.ok.injEq] at hstep
        subst hstep
        obtain ⟨⟨a0, ha0⟩, hv0, hle0⟩ := attachPackage_spec (stateWrites state pv) heap1 st n
        obtain ⟨hle1, hall, hv1⟩ := perName_fold_ok state pv ns _ st1 h
        refine ⟨CacheLe.trans hle0 hle1, ?_, ?_⟩
        · intro m hm
          rcases List.mem_cons.mp hm with rfl | hm
          · exact ⟨a0, hle1 _ _ ha0⟩
          · exact hall m hm
        · rw [hv1, hv0, emitted_mono hle1 _ n a0 ha0]
          simp

theorem emitted_map_mono {c0 c1 : List (String × Nat)} (hle : CacheLe c0 c1)
    (w : Vulnerability) (ns : List String)
    (hall : ∀ n ∈ ns, ∃ a, List.lookup n c0 = some a) :
    ns.map (emitted c0 w) = ns.map (emitted c1 w) := by
  apply List.map_congr_left
  intro n hn
  obtain ⟨a, ha⟩ := hall n hn
  exact emitted_mono hle w n a ha

/-- What the expansion of one prototype appends, `r` being the outcome of the name
resolution (`none` when the variable lookup failed). -/
theorem perProto_spec (root : Root) (object : DpkgInfoObject) (state : Option DpkgInfoState)
    (pv : Vulnerability) (st : St) (r : Option (List String))
    (hr : resolveNames root object.Name = .ok r)
    (hevr : ∀ s, state = some s → s.EVR ≠ none)
    (hpkg : ∀ s, state = some s → s.Arch ≠ none → pv.Package ≠ none) :
    ∃ st1, perProto root object state st pv = .ok st1 ∧
      CacheLe st.pkgcache st1.pkgcache ∧
      (∀ n ∈ r.getD [], ∃ a, List.lookup n st1.pkgcache = some a) ∧
      st1.vulns = st.vulns ++ (r.getD []).map (emitted st1.pkgcache (stateWrites state pv)) := by
  cases r with
  | none => exact ⟨st, by simp [perProto, hr], CacheLe.refl _, by simp, by simp⟩
  | some ns =>
    obtain ⟨st1, hfold, hle, hall, hv⟩ := perName_fold state pv hevr hpkg ns st
    exact ⟨st1, by simp only [perProto, hr]; exact hfold, hle, hall, hv⟩

/-- What the loop over prototypes appends: for each prototype in order, one vulnerability per
resolved name in order. -/
theorem perProto_fold (root : Root) (object : DpkgInfoObject) (state : Option DpkgInfoState)
    (r : Option (List String)) (hr : resolveNames root object.Name = .ok r)
    (hevr : ∀ s, state = some s → s.EVR ≠ none) :
    ∀ (pvs : List Vulnerability) (st : St),
      (∀ pv ∈ pvs, ∀ s, state = some s → s.Arch ≠ none → pv.Package ≠ none) →
      ∃ st1, pvs.foldlM (perProto root object state) st = .ok st1 ∧
        CacheLe st.pkgcache st1.pkgcache ∧
        (pvs ≠ [] → ∀ n ∈ r.getD [], ∃ a, List.lookup n st1.pkgcache = some a) ∧
        st1.vulns = st.vulns ++ pvs.flatMap (fun pv =>
          (r.getD []).map (emitted st1.pkgcache (stateWrites state pv)))
  | [], st, _ => ⟨st, rfl, CacheLe.refl _, by simp, by simp⟩
  | pv :: pvs, st, hpkg => by
    obtain ⟨st0, hstep, hle0, hall0, hv0⟩ := perProto_spec root object state pv st r hr hevr
      (hpkg pv (List.mem_cons_self pv pvs))
    obtain ⟨st1, hfold, hle1, _, hv1⟩ := perProto_fold root object state r hr hevr pvs st0
      (fun q hq => hpkg q (List.mem_cons_of_mem pv hq))
    refine ⟨st1, ?_, CacheLe.trans hle0 hle1, ?_, ?_⟩
    · simp only [List.foldlM_cons, bind, Except.bind, hstep]
      exact hfold
    · intro _ n hn
      obtain ⟨a, ha⟩ := hall0 n hn
      exact ⟨a, hle1 n a ha⟩
    · rw [hv1, hv0, emitted_map_mono hle1 _ _ hall0]
      simp

/-- The names of the packages a list of emitted vulnerabilities points to. -/
theorem emitted_names (base : Nat) (st1 : St) (hinv : St.Inv base st1) (w : Vulnerability)
    (ns : List String) (hall : ∀ n ∈ ns, ∃ a, List.lookup n st1.pkgcache = some a) :
    (ns.map (emitted st1.pkgcache w)).map (fun v => v.Package.bind (pkgName st1.heap)) =
      ns.map some := by
  rw [List.map_map]
  apply List.map_congr_left
  intro n hn
  obtain ⟨a, ha⟩ := hall n hn
  simp [emitted, ha, hinv.named n a ha]

theorem foldlM_skip {σ α ε : Type} (f : σ → α → Except ε σ) (c : α)
    (hc : ∀ s, f s c = .ok s) (l2 : List α) :
    ∀ (l1 : List α) (s : σ), (l1 ++ c :: l2).foldlM f s = (l1 ++ l2).foldlM f s
  | [], s => by
    simp only [List.nil_append, List.foldlM_cons, bind, Except.bind, hc s]
  | x :: l1, s => by
    simp only [List.cons_append, List.foldlM_cons, bind, Except.bind]
    cases f s x with
    | error e => rfl
    | ok s1 => exact foldlM_skip f c hc l2 l1 s1

theorem foldlM_replace {σ α ε : Type} (f : σ → α → Except ε σ) (x y : α)
    (hxy : ∀ s, f s x = f s y) (l2 : List α) :
    ∀ (l1 : List α) (s : σ), (l1 ++ x :: l2).foldlM f s = (l1 ++ y :: l2).foldlM f s
  | [], s => by
    simp only [List.nil_append, List.foldlM_cons, bind, Except.bind, hxy s]
  | z :: l1, s => by
    simp only [List.cons_append, List.foldlM_cons, bind, Except.bind]
    cases f s z with
    | error e => rfl
    | ok s1 => exact foldlM_replace f x y hxy l2 l1 s1

/-- The definitions of the document play no part in the translation of one definition. -/
theorem perDef_definitions (root : Root) (defs : List Definition) (f : ProtoVulnsFunc) :
    perDef { root with Definitions := defs } f = perDef root f := rfl

/-- The count of criteria matters only through the test `len(cris) == 1`. -/
theorem perCriterion_count (root : Root) (pvs : List Vulnerability) (n m : Nat)
    (hn : n ≠ 1) (hm : m ≠ 1) (st : St) (c : Criterion) :
    perCriterion root pvs n st c = perCriterion root pvs m st c := by
  simp [perCriterion, hn, hm]

theorem positionOf_some (ref : String) :
    ∀ (l : List ConstantVariable) (i : Nat), positionOf ref l = some i →
      ∃ cv, l[i]? = some cv ∧ cv.ID = ref
  | [], i, h => by simp [positionOf] at h
  | cv :: cvs, i, h => by
    unfold positionOf at h
    split at h
    · rename_i hid
      simp only [Option.some.injEq] at h
      subst h
      exact ⟨cv, by simp, hid⟩
    · cases hp : positionOf ref cvs with
      | none => simp [hp] at h
      | some j =>
        simp only [hp, Option.map_some', Option.some.injEq] at h
        subst h
        obtain ⟨cv1, h1, h2⟩ := positionOf_some ref cvs j hp
        exact ⟨cv1, by simpa using h1, h2⟩

theorem positionOf_none (ref : String) :
    ∀ (l : List ConstantVariable), (∀ cv ∈ l, cv.ID ≠ ref) → positionOf ref l = none
  | [], _ => rfl
  | cv :: cvs, h => by
    unfold positionOf
    rw [if_neg (h cv (List.mem_cons_self cv cvs)),
      positionOf_none ref cvs (fun c hc => h c (List.mem_cons_of_mem cv hc))]
    rfl

/-- The lookup of an ID that belongs to no constant variable of the document fails. -/
theorem Variables_Lookup_not_constant (root : Root) (ref : String)
    (h : ∀ cv ∈ root.Variables.ConstantVariables, cv.ID ≠ ref) :
    root.Variables.Lookup ref = .error (.notFound ref) := by
  simp [Variables.Lookup, positionOf_none ref _ h]

/-- A failed lookup of the variable an object names makes the expansion of its pair leave
the state of the run as it is, for every state and every list of prototypes. -/
theorem expandPair_variable_lookup_failed (root : Root) (object : DpkgInfoObject)
    (nm : DpkgName) (state : Option DpkgInfoState) (pvs : List Vulnerability) (st : St)
    (e : Err) (hname : object.Name = some nm)
    (href : 0 < nm.Ref.length)
    (hvar : root.Variables.Lookup nm.Ref = .error e) :
    expandPair root object state pvs st = .ok st := by
  have hstep : ∀ sto s pv, perProto root object sto s pv = .ok s := by
    intro sto s pv
    simp [perProto, resolveNames, hname, href, hvar]
  cases state with
  | none => exact foldlM_ok_of_id _ pvs st (fun pv _ => hstep none st pv)
  | some s0 =>
    simp only [expandPair]
    split
    · rfl
    · exact foldlM_ok_of_id _ pvs st (fun pv _ => hstep (some s0) st pv)

/-- The copy written for a state with an EVR and an arch carries the EVR as fixed-in version
and `mapArchOp` of the operator of the arch as architecture operation. -/
theorem stateWrites_arch (s : DpkgInfoState) (pv : Vulnerability) (evr : EVR) (arch : Arch)
    (hevr : s.EVR = some evr) (harch : s.Arch = some arch) :
    (stateWrites (some s) pv).FixedInVersion = evr.Body ∧
      (stateWrites (some s) pv).ArchOperation = mapArchOp arch.Operation := by
  simp [stateWrites, hevr, harch]

/-! ## Totality away from the architecture write -/

theorem foldlM_total {σ α ε : Type} (f : σ → α → Except ε σ) :
    ∀ (xs : List α) (s : σ), (∀ t, ∀ x ∈ xs, ∃ t1, f t x = .ok t1) →
      ∃ s1, xs.foldlM f s = .ok s1
  | [], s, _ => ⟨s, rfl⟩
  | x :: xs, s, h => by
    obtain ⟨s0, hs0⟩ := h s x (List.mem_cons_self x xs)
    obtain ⟨s1, hs1⟩ := foldlM_total f xs s0 (fun t y hy => h t y (List.mem_cons_of_mem x hy))
    exact ⟨s1, by simp only [List.foldlM_cons, bind, Except.bind, hs0]; exact hs1⟩

theorem lookup_some_mem {β : Type} (k : String) (v : β) :
    ∀ (l : List (String × β)), List.lookup k l = some v → (k, v) ∈ l
  | [], h => by simp at h
  | (k1, v1) :: l, h => by
    by_cases hk : k = k1
    · subst hk
      simp [List.lookup_cons] at h
      simp [h]
    · have hb : (k == k1) = false := by simpa using hk
      simp only [List.lookup_cons, hb] at h
      exact List.mem_cons_of_mem _ (lookup_some_mem k v l h)

theorem Lookup_ok_mem (ix : RefIndex) (ref kind : String) (i : Nat)
    (h : ix.Lookup ref = .ok (kind, i)) : (ref, (kind, i)) ∈ ix := by
  unfold RefIndex.Lookup at h
  cases hl : List.lookup ref ix with
  | none => simp [hl] at h
  | some kp =>
    simp only [hl, Except.ok.injEq] at h
    rw [h] at hl
    exact lookup_some_mem ref (kind, i) ix hl

theorem resolveNames_total (root : Root) (name : DpkgName) :
    ∃ r, resolveNames root (some name) = .ok r := by
  unfold resolveNames
  simp only
  split
  · unfold Variables.Lookup
    cases hp : positionOf name.Ref root.Variables.ConstantVariables with
    | none => exact ⟨none, rfl⟩
    | some i =>
      obtain ⟨cv, hcv, _⟩ := positionOf_some _ _ i hp
      simp only [hcv]
      exact ⟨_, rfl⟩
  · exact ⟨_, rfl⟩

theorem dpkgObjectLookup_total (root : Root) (hc : root.consistent = true) (ref : String) :
    ∃ r, dpkgObjectLookup root ref = .ok r ∧
      ∀ o, r = .ok o → o ∈ root.Objects.DpkgInfoObjects := by
  unfold dpkgObjectLookup
  cases hl : root.Objects.Index.Lookup ref with
  | error e => exact ⟨_, rfl, by intro o ho; cases ho⟩
  | ok ki =>
    obtain ⟨kind, i⟩ := ki
    simp only
    split
    · exact ⟨_, rfl, by intro o ho; cases ho⟩
    · rename_i hk
      have hm := Lookup_ok_mem _ _ _ _ hl
      simp only [Root.consistent, Bool.and_eq_true, List.all_eq_true] at hc
      have hlt := hc.1 _ hm
      simp only [hk, Bool.false_or, decide_eq_true_eq] at hlt
      rw [List.getElem?_eq_getElem hlt]
      refine ⟨_, rfl, ?_⟩
      intro o ho
      cases ho
      exact List.getElem_mem hlt

theorem dpkgStateLookup_total (root : Root) (hc : root.consistent = true) (ref : String) :
    ∃ r, dpkgStateLookup root ref = .ok r ∧
      ∀ s, r = .ok s → s ∈ root.States.DpkgInfoStates := by
  unfold dpkgStateLookup
  cases hl : root.States.Index.Lookup ref with
  | error e => exact ⟨_, rfl, by intro s hs; cases hs⟩
  | ok ki =>
    obtain ⟨kind, i⟩ := ki
    simp only
    split
    · exact ⟨_, rfl, by intro s hs; cases hs⟩
    · rename_i hk
      have hm := Lookup_ok_mem _ _ _ _ hl
      simp only [Root.consistent, Bool.and_eq_true, List.all_eq_true] at hc
      have hlt := hc.2 _ hm
      simp only [hk, Bool.false_or, decide_eq_true_eq] at hlt
      rw [List.getElem?_eq_getElem hlt]
      refine ⟨_, rfl, ?_⟩
      intro s hs
      cases hs
      exact List.getElem_mem hlt

theorem expandPair_total (root : Root) (object : DpkgInfoObject)
    (state : Option DpkgInfoState) (pvs : List Vulnerability) (st : St)
    (hnamed : object.Name ≠ none)
    (hsafe : ∀ pv ∈ pvs, ∀ s, state = some s → s.Arch ≠ none → pv.Package ≠ none) :
    ∃ st1, expandPair root object state pvs st = .ok st1 := by
  obtain ⟨nm, hnm⟩ := Option.ne_none_iff_exists'.mp hnamed
  obtain ⟨r, hr⟩ := resolveNames_total root nm
  rw [← hnm] at hr
  cases state with
  | none =>
    obtain ⟨st1, h, _⟩ := perProto_fold root object none r hr (by intro s hs; cases hs) pvs st
      hsafe
    exact ⟨st1, h⟩
  | some s =>
    simp only [expandPair]
    split
    · exact ⟨st, rfl⟩
    · rename_i hE
      have hevr : ∀ s1, some s = some s1 → s1.EVR ≠ none := by
        intro s1 hs1
        cases hs1
        intro hn
        exact hE (by simp [hn])
      obtain ⟨st1, h, _⟩ := perProto_fold root object (some s) r hr hevr pvs st hsafe
      exact ⟨st1, h⟩

theorem perPair_total (root : Root) (hc : root.consistent = true) (noVersion : Bool)
    (objRefs : List ObjectRef) (stateRefs : List StateRef) (pvs : List Vulnerability)
    (st : St) (i : Nat) (hi : i < objRefs.length)
    (hnamed : ∀ o ∈ root.Objects.DpkgInfoObjects, o.Name ≠ none)
    (hsafe : ∀ pv ∈ pvs, ∀ s ∈ root.States.DpkgInfoStates, s.Arch ≠ none → pv.Package ≠ none) :
    ∃ st1, perPair root noVersion objRefs stateRefs pvs st i = .ok st1 := by
  unfold perPair
  rw [List.getElem?_eq_getElem hi]
  simp only
  obtain ⟨ro, hro, homem⟩ := dpkgObjectLookup_total root hc objRefs[i].ObjectRef
  rw [hro]
  cases ro with
  | error e => exact ⟨st, rfl⟩
  | ok object =>
    simp only
    have hnm := hnamed object (homem object rfl)
    cases hs : stateRefs[i]? with
    | none =>
      exact expandPair_total root object none pvs st hnm (by intro pv _ s hs; cases hs)
    | some stateRef =>
      simp only
      obtain ⟨rs, hrs, hmem⟩ := dpkgStateLookup_total root hc stateRef.StateRef
      rw [hrs]
      cases rs with
      | error e =>
        simp only
        split
        · exact expandPair_total root object none pvs st hnm (by intro pv _ s hs; cases hs)
        · exact ⟨st, rfl⟩
      | ok s =>
        simp only
        apply expandPair_total root object (some s) pvs st hnm
        intro pv hpv s1 hs1
        cases hs1
        exact hsafe pv hpv s (hmem s rfl)

theorem perCriterion_total (root : Root) (hc : root.consistent = true)
    (pvs : List Vulnerability) (ncris : Nat) (st : St) (c : Criterion)
    (hnamed : ∀ o ∈ root.Objects.DpkgInfoObjects, o.Name ≠ none)
    (hsafe : ∀ pv ∈ pvs, ∀ s ∈ root.States.DpkgInfoStates, s.Arch ≠ none → pv.Package ≠ none) :
    ∃ st1, perCriterion root pvs ncris st c = .ok st1 := by
  have hloop : ∀ (nv : Bool) (t : Test), ∃ st1, (List.range t.ObjectRefs.length).foldlM
      (perPair root nv t.ObjectRefs t.StateRefs pvs) st = .ok st1 := by
    intro nv t
    apply foldlM_total
    intro s i hi
    exact perPair_total root hc nv _ _ pvs s i (List.mem_range.mp hi) hnamed hsafe
  unfold perCriterion
  cases ht : TestLookup root c.TestRef with
  | error e => exact ⟨st, rfl⟩
  | ok t =>
    simp only
    split
    · exact hloop true t
    · split
      · exact ⟨st, rfl⟩
      · split
        · exact ⟨st, rfl⟩
        · exact hloop false t

/-- Away from its two nil dereferences the run is total: with a consistent index, objects
that have a name, and prototypes that carry a package whenever a state of the document has
an arch, the call returns, and returns a nil error. -/
theorem DpkgDefsToVulns_total (root : Root) (protoVulns : ProtoVulnsFunc)
    (heap : List Package) (hc : root.consistent = true)
    (hnamed : ∀ o ∈ root.Objects.DpkgInfoObjects, o.Name ≠ none)
    (hsafe : ∀ d pvs, protoVulns d = .ok pvs → ∀ pv ∈ pvs,
      ∀ s ∈ root.States.DpkgInfoStates, s.Arch ≠ none → pv.Package ≠ none) :
    ∃ out, DpkgDefsToVulns root protoVulns heap = .ok out ∧ out.err = none := by
  have hrun : ∃ st, run root protoVulns heap = .ok st := by
    apply foldlM_total
    intro s d _
    unfold perDef
    cases hf : protoVulns d with
    | error e => exact ⟨s, rfl⟩
    | ok pvs =>
      simp only
      apply foldlM_total
      intro t c _
      exact perCriterion_total root hc pvs _ t c hnamed (hsafe d pvs hf)
  obtain ⟨st, hst⟩ := hrun
  exact ⟨{ vulns := st.vulns, err := none, heap := st.heap },
    by simp [DpkgDefsToVulns, hst, Except.map], rfl⟩

/-- What a completed loop over prototypes has appended. -/
theorem perProto_fold_ok (root : Root) (object : DpkgInfoObject)
    (state : Option DpkgInfoState) (r : Option (List String))
    (hr : resolveNames root object.Name = .ok r) :
    ∀ (pvs : List Vulnerability) (st st1 : St),
      pvs.foldlM (perProto root object state) st = .ok st1 →
      CacheLe st.pkgcache st1.pkgcache ∧
        st1.vulns = st.vulns ++ pvs.flatMap (fun pv =>
          (r.getD []).map (emitted st1.pkgcache (stateWrites state pv)))
  | [], st, st1, h => by
    simp only [List.foldlM_nil, pure, Except.pure, Except.ok.injEq] at h
    subst h
    exact ⟨CacheLe.refl _, by simp⟩
  | pv :: pvs, st, st1, h => by
    simp only [List.foldlM_cons, bind, Except.bind] at h
    cases hstep : perProto root object state st pv with
    | error f => simp [hstep] at h
    | ok st0 =>
      simp only [hstep] at h
      obtain ⟨hle1, hv1⟩ := perProto_fold_ok root object state r hr pvs st0 st1 h
      have h0 : CacheLe st.pkgcache st0.pkgcache ∧
          (∀ n ∈ r.getD [], ∃ a, List.lookup n st0.pkgcache = some a) ∧
          st0.vulns = st.vulns ++
            (r.getD []).map (emitted st0.pkgcache (stateWrites state pv)) := by
        cases r with
        | none =>
          simp only [perProto, hr, Except.ok.injEq] at hstep
          subst hstep
          exact ⟨CacheLe.refl _, by simp, by simp⟩
        | some ns =>
          simp only [perProto, hr] at hstep
          exact perName_fold_ok state pv ns st st0 hstep
      obtain ⟨hle0, hall0, hv0⟩ := h0
      refine ⟨CacheLe.trans hle0 hle1, ?_⟩
      rw [hv1, hv0, emitted_map_mono hle1 _ _ hall0]
      simp

theorem length_flatMap_map {α β γ : Type} (g : α → β → γ) (ys : List β) :
    ∀ (xs : List α), (xs.flatMap (fun x => ys.map (g x))).length = xs.length * ys.length
  | [] => by simp
  | x :: xs => by
    simp only [List.flatMap_cons, List.length_append, List.length_map, List.length_cons,
      length_flatMap_map g ys xs]
    rw [Nat.succ_mul, Nat.add_comm]

/-! ## The run follows the value-level translation -/

theorem Tracks.skip (base : Nat) (s : St) (h : St.Fresh base s) :
    Tracks base (.ok s) s (.ok []) :=
  ⟨s, rfl, h, by simp⟩

theorem init_fresh (heap : List Package) : St.Fresh heap.length (St.init heap) := by
  refine ⟨?_, ?_, ?_⟩
  · intro n a h
    simp [St.init] at h
  · intro v hv
    simp [St.init] at hv
  · simp [St.init]

/-- The two outcomes of the state writes: the fault `writeFault` names, or the copy
`stateWrites` with a store that is the old one or the old one with the arch of the package
of the prototype set. -/
theorem applyState_cases (state : Option DpkgInfoState) (pv : Vulnerability)
    (heap : List Package) :
    (∀ f, writeFault state pv = some f → applyState state pv heap = .error f) ∧
      (writeFault state pv = none →
        ∃ heap1, applyState state pv heap = .ok (stateWrites state pv, heap1) ∧
          (heap1 = heap ∨ ∃ p x, pv.Package = some p ∧ heap1 = setArch heap p x)) := by
  cases state with
  | none =>
    exact ⟨by intro f hf; simp [writeFault] at hf, fun _ => ⟨heap, rfl, Or.inl rfl⟩⟩
  | some s =>
    cases hE : s.EVR with
    | none =>
      refine ⟨?_, ?_⟩
      · intro f hf
        simp only [writeFault, hE, Option.some.injEq] at hf
        simp [applyState, hE, hf]
      · intro hf
        simp [writeFault, hE] at hf
    | some evr =>
      cases hA : s.Arch with
      | none =>
        refine ⟨?_, ?_⟩
        · intro f hf
          simp [writeFault, hE, hA] at hf
        · intro _
          exact ⟨heap, by simp [applyState, stateWrites, hE, hA], Or.inl rfl⟩
      | some arch =>
        cases hP : pv.Package with
        | none =>
          refine ⟨?_, ?_⟩
          · intro f hf
            simp only [writeFault, hE, hA, hP, Option.some.injEq] at hf
            simp [applyState, hE, hA, hP, hf]
          · intro hf
            simp [writeFault, hE, hA, hP] at hf
        | some p =>
          refine ⟨?_, ?_⟩
          · intro f hf
            simp [writeFault, hE, hA, hP] at hf
          · intro _
            exact ⟨setArch heap p arch.Body, by simp [applyState, stateWrites, hE, hA, hP],
              Or.inr ⟨p, arch.Body, rfl, rfl⟩⟩

theorem setArch_get_ne (heap : List Package) (p : Nat) (x : String) (a : Nat) (h : p ≠ a) :
    (setArch heap p x)[a]? = heap[a]? := by
  unfold setArch
  exact List.getElem?_modify_ne _ _ h

theorem getElem?_append_of_some {α : Type} (l : List α) (y x : α) (a : Nat)
    (h : l[a]? = some x) : (l ++ [y])[a]? = some x := by
  have hlt : a < l.length := by
    by_contra hge
    rw [List.getElem?_eq_none (Nat.le_of_not_lt hge)] at h
    cases h
  rw [List.getElem?_append_left hlt]
  exact h

/-- The cache step on a store that agrees with the old one past `base`. -/
theorem attachPackage_fresh (base : Nat) (w : Vulnerability) (heap1 : List Package) (st : St)
    (n : String) (hf : St.Fresh base st) (hlen : heap1.length = st.heap.length)
    (hsame : ∀ a, base ≤ a → heap1[a]? = st.heap[a]?) :
    St.Fresh base (attachPackage w heap1 st n) ∧
      (attachPackage w heap1 st n).values = st.values ++ [mkValue w n] := by
  have hold : ∀ (h2 : List Package), (∀ a q, base ≤ a → st.heap[a]? = some q →
      h2[a]? = some q) → st.vulns.map (deref h2) = st.vulns.map (deref st.heap) := by
    intro h2 hh
    apply List.map_congr_left
    intro v hv
    obtain ⟨m, a, hm, hva⟩ := hf.pointed v hv
    obtain ⟨hb, hc⟩ := hf.content m a hm
    simp [deref, hva, hc, hh a _ hb hc]
  unfold attachPackage
  cases hl : List.lookup n st.pkgcache with
  | none =>
    simp only
    have hkeep : ∀ a q, base ≤ a → st.heap[a]? = some q →
        (heap1 ++ [({ Name := n, Kind := BINARY } : Package)])[a]? = some q := by
      intro a q hb hq
      apply getElem?_append_of_some
      rw [hsame a hb]
      exact hq
    refine ⟨⟨?_, ?_, ?_⟩, ?_⟩
    · intro m a hm
      by_cases hmn : m = n
      · subst hmn
        rw [lookup_cons_self] at hm
        cases hm
        exact ⟨by rw [hlen]; exact hf.bound, by simp⟩
      · rw [lookup_cons_ne m n _ _ hmn] at hm
        obtain ⟨hb, hc⟩ := hf.content m a hm
        exact ⟨hb, hkeep a _ hb hc⟩
    · intro v hv
      rcases List.mem_append.mp hv with hv | hv
      · obtain ⟨m, a, hm, hva⟩ := hf.pointed v hv
        have hmn : m ≠ n := by
          intro h
          rw [h, hl] at hm
          cases hm
        exact ⟨m, a, by rw [lookup_cons_ne m n _ _ hmn]; exact hm, hva⟩
      · simp only [List.mem_singleton] at hv
        exact ⟨n, heap1.length, lookup_cons_self _ _ _, by rw [hv]⟩
    · simp only [List.length_append, List.length_singleton]
      have := hf.bound
      omega
    · simp only [St.values, List.map_append, List.map_cons, List.map_nil]
      rw [hold _ hkeep]
      simp [deref, mkValue]
  | some pkg =>
    simp only
    obtain ⟨hb, hc⟩ := hf.content n pkg hl
    have hkeep : ∀ a q, base ≤ a → st.heap[a]? = some q → heap1[a]? = some q := by
      intro a q hb hq
      rw [hsame a hb]
      exact hq
    refine ⟨⟨?_, ?_, ?_⟩, ?_⟩
    · intro m a hm
      obtain ⟨hb1, hc1⟩ := hf.content m a hm
      exact ⟨hb1, hkeep a _ hb1 hc1⟩
    · intro v hv
      rcases List.mem_append.mp hv with hv | hv
      · exact hf.pointed v hv
      · simp only [List.mem_singleton] at hv
        exact ⟨n, pkg, hl, by rw [hv]⟩
    · rw [hlen]
      exact hf.bound
    · simp only [St.values, List.map_append, List.map_cons, List.map_nil]
      rw [hold _ hkeep]
      simp [deref, mkValue, hkeep pkg _ hb hc]

theorem perName_tracks (base : Nat) (state : Option DpkgInfoState) (pv : Vulnerability)
    (hwf : ∀ a, pv.Package = some a → a < base) (st : St) (hf : St.Fresh base st)
    (n : String) :
    Tracks base (perName state pv st n) st (nameValues state pv n) := by
  obtain ⟨hfault, hok⟩ := applyState_cases state pv st.heap
  unfold nameValues
  cases hw : writeFault state pv with
  | some f =>
    simp only [Tracks, perName, hfault f hw]
  | none =>
    obtain ⟨heap1, happ, hheap⟩ := hok hw
    simp only [Tracks, perName, happ]
    have hlen : heap1.length = st.heap.length := by
      rcases hheap with rfl | ⟨p, x, _, rfl⟩
      · rfl
      · exact setArch_length _ _ _
    have hsame : ∀ a, base ≤ a → heap1[a]? = st.heap[a]? := by
      intro a hb
      rcases hheap with rfl | ⟨p, x, hp, rfl⟩
      · rfl
      · have := hwf p hp
        exact setArch_get_ne _ _ _ _ (by omega)
    obtain ⟨h1, h2⟩ := attachPackage_fresh base (stateWrites state pv) heap1 st n hf hlen hsame
    exact ⟨_, rfl, h1, h2⟩

theorem foldlM_tracks {α : Type} (base : Nat) (f : St → α → Except Fault St)
    (g : α → Except Fault (List VulnValue)) :
    ∀ (xs : List α) (s : St), St.Fresh base s →
      (∀ t, St.Fresh base t → ∀ x ∈ xs, Tracks base (f t x) t (g x)) →
      Tracks base (xs.foldlM f s) s (collect g xs)
  | [], s, hs, _ => Tracks.skip base s hs
  | x :: xs, s, hs, h => by
    have hx := h s hs x (List.mem_cons_self x xs)
    simp only [List.foldlM_cons, bind, Except.bind, collect, appendOutcome]
    cases hg : g x with
    | error e =>
      simp only [hg, Tracks] at hx ⊢
      simp [hx]
    | ok vs =>
      simp only [hg, Tracks] at hx
      obtain ⟨s1, hs1, hf1, hv1⟩ := hx
      have ih := foldlM_tracks base f g xs s1 hf1
        (fun t ht y hy => h t ht y (List.mem_cons_of_mem x hy))
      simp only [hs1]
      cases hc : collect g xs with
      | error e =>
        simp only [hc, Tracks] at ih ⊢
        exact ih
      | ok ws =>
        simp only [hc, Tracks] at ih ⊢
        obtain ⟨s2, hs2, hf2, hv2⟩ := ih
        exact ⟨s2, hs2, hf2, by rw [hv2, hv1, List.append_assoc]⟩

theorem perProto_tracks (base : Nat) (root : Root) (object : DpkgInfoObject)
    (state : Option DpkgInfoState) (pv : Vulnerability)
    (hwf : ∀ a, pv.Package = some a → a < base) (st : St) (hf : St.Fresh base st) :
    Tracks base (perProto root object state st pv) st (protoValues root object state pv) := by
  unfold perProto protoValues
  cases hr : resolveNames root object.Name with
  | error f => simp [Tracks]
  | ok r =>
    cases r with
    | none => exact Tracks.skip base st hf
    | some ns =>
      exact foldlM_tracks base _ _ ns st hf
        (fun t ht n _ => perName_tracks base state pv hwf t ht n)

theorem expandPair_tracks (base : Nat) (root : Root) (object : DpkgInfoObject)
    (state : Option DpkgInfoState) (pvs : List Vulnerability)
    (hwf : ∀ pv ∈ pvs, ∀ a, pv.Package = some a → a < base) (st : St)
    (hf : St.Fresh base st) :
    Tracks base (expandPair root object state pvs st) st
      (expandValues root object state pvs) := by
  have hloop : ∀ sto, Tracks base (pvs.foldlM (perProto root object sto) st) st
      (collect (protoValues root object sto) pvs) := fun sto =>
    foldlM_tracks base _ _ pvs st hf
      (fun t ht pv hpv => perProto_tracks base root object sto pv (hwf pv hpv) t ht)
  unfold expandPair expandValues
  cases state with
  | none => exact hloop none
  | some s =>
    simp only
    split
    · exact Tracks.skip base st hf
    · exact hloop (some s)

theorem perPair_tracks (base : Nat) (root : Root) (noVersion : Bool)
    (objRefs : List ObjectRef) (stateRefs : List StateRef) (pvs : List Vulnerability)
    (hwf : ∀ pv ∈ pvs, ∀ a, pv.Package = some a → a < base) (st : St)
    (hf : St.Fresh base st) (i : Nat) :
    Tracks base (perPair root noVersion objRefs stateRefs pvs st i) st
      (pairValues root noVersion objRefs stateRefs pvs i) := by
  unfold perPair pairValues
  cases ho : objRefs[i]? with
  | none => simp [Tracks]
  | some objRef =>
    simp only
    cases hol : dpkgObjectLookup root objRef.ObjectRef with
    | error f => simp [Tracks]
    | ok ro =>
      cases ro with
      | error e => exact Tracks.skip base st hf
      | ok object =>
        simp only
        cases hs : stateRefs[i]? with
        | none => exact expandPair_tracks base root object none pvs hwf st hf
        | some stateRef =>
          simp only
          cases hsl : dpkgStateLookup root stateRef.StateRef with
          | error f => simp [Tracks]
          | ok rs =>
            cases rs with
            | error e =>
              simp only
              split
              · exact expandPair_tracks base root object none pvs hwf st hf
              · exact Tracks.skip base st hf
            | ok s => exact expandPair_tracks base root object (some s) pvs hwf st hf

theorem perCriterion_tracks (base : Nat) (root : Root) (pvs : List Vulnerability)
    (hwf : ∀ pv ∈ pvs, ∀ a, pv.Package = some a → a < base) (ncris : Nat) (st : St)
    (hf : St.Fresh base st) (c : Criterion) :
    Tracks base (perCriterion root pvs ncris st c) st (criterionValues root pvs ncris c) := by
  have hloop : ∀ (nv : Bool) (t : Test), Tracks base
      ((List.range t.ObjectRefs.length).foldlM
        (perPair root nv t.ObjectRefs t.StateRefs pvs) st) st
      (collect (pairValues root nv t.ObjectRefs t.StateRefs pvs)
        (List.range t.ObjectRefs.length)) := fun nv t =>
    foldlM_tracks base _ _ _ st hf
      (fun s hs i _ => perPair_tracks base root nv _ _ pvs hwf s hs i)
  unfold perCriterion criterionValues
  cases ht : TestLookup root c.TestRef with
  | error e => exact Tracks.skip base st hf
  | ok t =>
    simp only
    split
    · exact hloop true t
    · split
      · exact Tracks.skip base st hf
      · split
        · exact Tracks.skip base st hf
        · exact hloop false t

theorem perDef_tracks (base : Nat) (root : Root) (protoVulns : ProtoVulnsFunc)
    (hwf : ∀ d pvs, protoVulns d = .ok pvs → ∀ pv ∈ pvs, ∀ a, pv.Package = some a → a < base)
    (st : St) (hf : St.Fresh base st) (d : Definition) :
    Tracks base (perDef root protoVulns st d) st (defValues root protoVulns d) := by
  unfold perDef defValues
  cases hp : protoVulns d with
  | error e => exact Tracks.skip base st hf
  | ok pvs =>
    exact foldlM_tracks base _ _ _ st hf
      (fun s hs c _ => perCriterion_tracks base root pvs (hwf d pvs hp) _ s hs c)

/-- The values of the output of a run are those of the value-level translation, fault for
fault. -/
theorem DpkgDefsToVulns_values (root : Root) (protoVulns : ProtoVulnsFunc)
    (heap : List Package)
    (hwf : ∀ d pvs, protoVulns d = .ok pvs → ∀ pv ∈ pvs, ∀ a, pv.Package = some a →
      a < heap.length) :
    (DpkgDefsToVulns root protoVulns heap).map Output.values =
      translateValues root protoVulns root.Definitions := by
  have h := foldlM_tracks heap.length (perDef root protoVulns) (defValues root protoVulns)
    root.Definitions (St.init heap) (init_fresh heap)
    (fun s hs d _ => perDef_tracks heap.length root protoVulns hwf s hs d)
  unfold translateValues
  unfold DpkgDefsToVulns run
  cases hc : collect (defValues root protoVulns) root.Definitions with
  | error e =>
    simp only [hc, Tracks] at h
    simp [h, Except.map]
  | ok vs =>
    simp only [hc, Tracks] at h
    obtain ⟨s1, hs1, _, hv⟩ := h
    simp only [hs1, Except.map, Except.ok.injEq]
    simpa [St.values, Output.values, St.init] using hv

theorem appendOutcome_assoc {β ε : Type} (a b c : Except ε (List β)) :
    appendOutcome (appendOutcome a b) c = appendOutcome a (appendOutcome b c) := by
  cases a with
  | error e => rfl
  | ok vs =>
    cases b with
    | error e => rfl
    | ok ws =>
      cases c with
      | error e => rfl
      | ok us => simp [appendOutcome]

theorem appendOutcome_nil_left {β ε : Type} (a : Except ε (List β)) :
    appendOutcome (.ok []) a = a := by
  cases a <;> simp [appendOutcome]

theorem appendOutcome_nil_right {β ε : Type} (a : Except ε (List β)) :
    appendOutcome a (.ok []) = a := by
  cases a <;> simp [appendOutcome]

theorem collect_append {α β ε : Type} (g : α → Except ε (List β)) (ys : List α) :
    ∀ (xs : List α), collect g (xs ++ ys) = appendOutcome (collect g xs) (collect g ys)
  | [] => by
    rw [List.nil_append]
    exact (appendOutcome_nil_left _).symm
  | x :: xs => by
    rw [List.cons_append]
    show appendOutcome (g x) (collect g (xs ++ ys)) =
      appendOutcome (appendOutcome (g x) (collect g xs)) (collect g ys)
    rw [collect_append g ys xs, appendOutcome_assoc]

theorem collect_singleton {α β ε : Type} (g : α → Except ε (List β)) (x : α) :
    collect g [x] = g x :=
  appendOutcome_nil_right (g x)

/-- The definitions of the document play no part in the values of one definition. -/
theorem defValues_definitions (root : Root) (defs : List Definition) (f : ProtoVulnsFunc) :
    defValues { root with Definitions := defs } f = defValues root f := rfl

/-! ## `updater/bodhi`: lemmas -/

namespace Bodhi

/-- The names under which a set keeps its updaters. -/
theorem lookup_isSome_mem_keys (k : String) :
    ∀ (l : List (String × Updater)), (∃ u, List.lookup k l = some u) ↔ k ∈ l.map Prod.fst
  | [] => by simp
  | (k1, u1) :: l => by
    by_cases hk : k = k1
    · subst hk
      simp [List.lookup_cons]
    · have hb : (k == k1) = false := by simpa using hk
      simp only [List.lookup_cons, hb, List.map_cons, List.mem_cons, hk, false_or]
      exact lookup_isSome_mem_keys k l

/-- Every updater of the set is kept under its name, and the names are distinct. -/
structure UpdaterSet.Keyed (s : UpdaterSet) : Prop where
  keyed : ∀ p ∈ s.set, p.1 = p.2.Name
  nodup : (s.set.map Prod.fst).Nodup

theorem addRelease_spec (f : Factory) (s : UpdaterSet) (r : release) (hs : s.Keyed) :
    (addRelease f s r).Keyed ∧
      (∀ name, name ∈ (addRelease f s r).set.map Prod.fst ↔
        name ∈ s.set.map Prod.fst ∨ (r.Pending = false ∧ name = "bodhi-" ++ r.Name)) ∧
      (∀ u ∈ (addRelease f s r).Updaters,
        u ∈ s.Updaters ∨ (u.release = r ∧ r.Pending = false)) := by
  unfold addRelease
  cases hp : r.Pending with
  | true =>
    simp only [if_true]
    exact ⟨hs, by simp, fun u hu => Or.inl hu⟩
  | false =>
    simp only [Bool.false_eq_true, if_false]
    unfold UpdaterSet.Add
    have hname : Updater.Name { release := r, c := f.c, root := f.root } =
        "bodhi-" ++ r.Name := rfl
    cases hl : List.lookup (Updater.Name { release := r, c := f.c, root := f.root }) s.set with
    | some u0 =>
      simp only
      have hmem := (lookup_isSome_mem_keys _ s.set).mp ⟨u0, hl⟩
      rw [hname] at hmem
      refine ⟨hs, ?_, fun u hu => Or.inl hu⟩
      intro name
      constructor
      · intro h
        exact Or.inl h
      · rintro (h | ⟨_, rfl⟩)
        · exact h
        · exact hmem
    | none =>
      simp only
      have hnot : "bodhi-" ++ r.Name ∉ s.set.map Prod.fst := by
        intro hm
        rw [← hname] at hm
        obtain ⟨u, hu⟩ := (lookup_isSome_mem_keys _ s.set).mpr hm
        rw [hl] at hu
        cases hu
      refine ⟨⟨?_, ?_⟩, ?_, ?_⟩
      · intro p hp
        rcases List.mem_append.mp hp with hp | hp
        · exact hs.keyed p hp
        · simp only [List.mem_singleton] at hp
          rw [hp]
      · rw [List.map_append, List.nodup_append]
        refine ⟨hs.nodup, by simp, ?_⟩
        intro a ha hb
        simp only [List.map_cons, List.map_nil, List.mem_singleton] at hb
        rw [hb, hname] at ha
        exact hnot ha
      · intro name
        simp only [List.map_append, List.mem_append, List.map_cons, List.map_nil,
          List.mem_singleton, hname, true_and]
      · intro u hu
        simp only [UpdaterSet.Updaters, List.map_append, List.mem_append, List.map_cons,
          List.map_nil, List.mem_singleton] at hu
        rcases hu with hu | hu
        · exact Or.inl hu
        · exact Or.inr ⟨by rw [hu], trivial⟩

theorem foldl_addRelease_spec (f : Factory) :
    ∀ (rs : List release) (s : UpdaterSet), s.Keyed →
      (rs.foldl (addRelease f) s).Keyed ∧
        (∀ name, name ∈ (rs.foldl (addRelease f) s).set.map Prod.fst ↔
          name ∈ s.set.map Prod.fst ∨
            ∃ r ∈ rs, r.Pending = false ∧ name = "bodhi-" ++ r.Name) ∧
        (∀ u ∈ (rs.foldl (addRelease f) s).Updaters,
          u ∈ s.Updaters ∨ (u.release ∈ rs ∧ u.release.Pending = false))
  | [], s, hs => ⟨hs, by simp, fun u hu => Or.inl hu⟩
  | r :: rs, s, hs => by
    obtain ⟨hk0, hn0, hu0⟩ := addRelease_spec f s r hs
    obtain ⟨hk1, hn1, hu1⟩ := foldl_addRelease_spec f rs (addRelease f s r) hk0
    simp only [List.foldl_cons]
    refine ⟨hk1, ?_, ?_⟩
    · intro name
      rw [hn1 name, hn0 name]
      constructor
      · rintro ((h | ⟨hp, hn⟩) | ⟨r1, hr1, hp, hn⟩)
        · exact Or.inl h
        · exact Or.inr ⟨r, List.mem_cons_self r rs, hp, hn⟩
        · exact Or.inr ⟨r1, List.mem_cons_of_mem r hr1, hp, hn⟩
      · rintro (h | ⟨r1, hr1, hp, hn⟩)
        · exact Or.inl (Or.inl h)
        · rcases List.mem_cons.mp hr1 with rfl | hr1
          · exact Or.inl (Or.inr ⟨hp, hn⟩)
          · exact Or.inr ⟨r1, hr1, hp, hn⟩
    · intro u hu
      rcases hu1 u hu with h | ⟨hm, hp⟩
      · rcases hu0 u h with h | ⟨he, hp⟩
        · exact Or.inl h
        · exact Or.inr ⟨by rw [he]; exact List.mem_cons_self r rs, by rw [he]; exact hp⟩
      · exact Or.inr ⟨List.mem_cons_of_mem r hm, hp⟩

theorem Keyed_names (s : UpdaterSet) (hs : s.Keyed) :
    s.Updaters.map Updater.Name = s.set.map Prod.fst := by
  unfold UpdaterSet.Updaters
  rw [List.map_map]
  apply List.map_congr_left
  intro p hp
  exact (hs.keyed p hp).symm

end Bodhi

/-! ## `scanner/gobin`: lemmas -/

namespace Gobin

theorem splitOn_ne_nil (sep : Char) : ∀ (cs : List Char), splitOn sep cs ≠ []
  | [] => by simp [splitOn]
  | c :: cs => by
    unfold splitOn
    split
    · simp
    · split <;> simp

/-- Every entry of a module list that `Info` returns has a first field. -/
theorem Info_entries_nonempty (e : exe) (ver : String) (mod : List (List String))
    (h : e.Info = .ok (ver, mod)) : ∀ l ∈ mod, l ≠ [] := by
  unfold exe.Info at h
  cases hr : e.readHeader with
  | error err => simp [hr] at h
  | ok vm =>
    obtain ⟨v, m⟩ := vm
    simp only [hr] at h
    split at h
    · simp only [Except.ok.injEq, Prod.mk.injEq] at h
      obtain ⟨_, rfl⟩ := h
      simp
    · simp only [Except.ok.injEq, Prod.mk.injEq] at h
      obtain ⟨_, rfl⟩ := h
      intro l hl
      simp only [List.mem_map] at hl
      obtain ⟨line, _, rfl⟩ := hl
      intro hnil
      exact splitOn_ne_nil '\t' line (List.map_eq_nil_iff.mp hnil)

theorem scanEntry_ok (name : String) (out : List Package) (l : List String)
    (h : entryOk l = true) :
    scanEntry name out l = .ok (out ++ (entryPackage name l).toList) := by
  cases l with
  | nil => simp [entryOk] at h
  | cons k rest =>
    by_cases hp : k = "path"
    · subst hp
      have : entryPackage name ("path" :: rest) = none := by
        unfold entryPackage
        split
        · rename_i heq
          simp only [List.cons.injEq] at heq
          obtain ⟨rfl, _⟩ := heq
          simp
        · rfl
      simp [scanEntry, this]
    · by_cases hm : k = "mod" ∨ k = "dep"
      · simp only [entryOk, hm, if_true, decide_eq_true_eq] at h
        match rest, h with
        | n :: v :: tl, _ =>
          simp [scanEntry, hp, hm, entryPackage]
      · have : entryPackage name (k :: rest) = none := by
          unfold entryPackage
          split
          · rename_i heq
            simp only [List.cons.injEq] at heq
            obtain ⟨rfl, _⟩ := heq
            simp [hm]
          · rfl
        simp [scanEntry, hp, hm, this]

theorem scanEntries_ok (name : String) :
    ∀ (mod : List (List String)) (out : List Package), (∀ l ∈ mod, entryOk l = true) →
      mod.foldlM (scanEntry name) out = .ok (out ++ mod.filterMap (entryPackage name))
  | [], out, _ => by simp [pure, Except.pure]
  | l :: mod, out, h => by
    have hl := scanEntry_ok name out l (h l (List.mem_cons_self l mod))
    simp only [List.foldlM_cons, bind, Except.bind, hl]
    rw [scanEntries_ok name mod _ (fun x hx => h x (List.mem_cons_of_mem l hx))]
    cases hp : entryPackage name l <;> simp [List.filterMap_cons, hp]

/-- For an executable with a version and a module list whose `mod` and `dep` entries have
three fields, `Scan` emits the runtime package followed by one package per `mod` or `dep`
entry, in entry order, and nothing for the other entries. -/
theorem scanExe_ok (e : exe) (ver : String) (mod : List (List String)) (out : List Package)
    (hinfo : e.Info = .ok (ver, mod)) (hver : ver ≠ "") (hmod : mod ≠ [])
    (hok : ∀ l ∈ mod, entryOk l = true) :
    scanExe out e =
      .ok (out ++ runtimePackage e.name ver :: mod.filterMap (entryPackage e.name)) := by
  have hlen : mod.length ≠ 0 := by
    intro h
    exact hmod (List.length_eq_zero.mp h)
  simp only [scanExe, hinfo, hver, hlen, if_false]
  rw [scanEntries_ok e.name mod _ hok]
  simp

end Gobin

/-! ## A document without one of its objects -/

theorem lookup_filter_ne {β : Type} (oref : String) (k : String) :
    ∀ (l : List (String × β)),
      List.lookup k (l.filter (fun e => e.1 != oref)) =
        if k = oref then none else List.lookup k l
  | [] => by simp
  | (k1, v1) :: l => by
    have ih := lookup_filter_ne (β := β) oref k l
    by_cases h1 : k1 = oref
    · subst h1
      simp only [List.filter_cons, bne_self_eq_false, Bool.false_eq_true, if_false, ih]
      by_cases hk : k = k1
      · simp [hk]
      · have hb : (k == k1) = false := by simpa using hk
        simp [hk, List.lookup_cons, hb]
    · have hne : (k1 != oref) = true := by simpa using h1
      simp only [List.filter_cons, hne, if_true, List.lookup_cons, ih]
      by_cases hk : k = k1
      · subst hk
        simp [h1]
      · have hb : (k == k1) = false := by simpa using hk
        simp [hb]

theorem dpkgObjectLookup_withoutObject_self (root : Root) (oref : String) :
    dpkgObjectLookup (withoutObject root oref) oref = .ok (.error (.notFound oref)) := by
  simp [dpkgObjectLookup, withoutObject, RefIndex.Lookup, lookup_filter_ne]

theorem dpkgObjectLookup_withoutObject_ne (root : Root) (oref ref : String) (h : ref ≠ oref) :
    dpkgObjectLookup (withoutObject root oref) ref = dpkgObjectLookup root ref := by
  simp [dpkgObjectLookup, withoutObject, RefIndex.Lookup, lookup_filter_ne, h]

theorem dpkgStateLookup_withoutObject (root : Root) (oref : String) :
    dpkgStateLookup (withoutObject root oref) = dpkgStateLookup root := rfl

theorem expandPair_withoutObject (root : Root) (oref : String) :
    expandPair (withoutObject root oref) = expandPair root := rfl

/-- A pair whose object names a variable whose lookup fails leaves the state of the run as
it is, when the lookup of its state, if any, does not fault. -/
theorem perPair_variable_lookup_failed (root : Root) (hc : root.consistent = true)
    (oref : String) (obj : DpkgInfoObject) (nm : DpkgName) (e : Err)
    (hobj : dpkgObjectLookup root oref = .ok (.ok obj))
    (hname : obj.Name = some nm) (href : 0 < nm.Ref.length)
    (hvar : root.Variables.Lookup nm.Ref = .error e)
    (noVersion : Bool) (objRefs : List ObjectRef) (stateRefs : List StateRef)
    (pvs : List Vulnerability) (st : St) (i : Nat) (o : ObjectRef)
    (ho : objRefs[i]? = some o) (horef : o.ObjectRef = oref) :
    perPair root noVersion objRefs stateRefs pvs st i = .ok st := by
  have hexp : ∀ state, expandPair root obj state pvs st = .ok st := fun state =>
    expandPair_variable_lookup_failed root obj nm state pvs st e hname href hvar
  unfold perPair
  simp only [ho, horef, hobj]
  cases hs : stateRefs[i]? with
  | none => exact hexp none
  | some stateRef =>
    simp only
    obtain ⟨rs, hrs, _⟩ := dpkgStateLookup_total root hc stateRef.StateRef
    rw [hrs]
    cases rs with
    | error e1 =>
      simp only
      split
      · exact hexp none
      · rfl
    | ok s => exact hexp (some s)

theorem perPair_withoutObject (root : Root) (hc : root.consistent = true)
    (oref : String) (obj : DpkgInfoObject) (nm : DpkgName) (e : Err)
    (hobj : dpkgObjectLookup root oref = .ok (.ok obj))
    (hname : obj.Name = some nm) (href : 0 < nm.Ref.length)
    (hvar : root.Variables.Lookup nm.Ref = .error e)
    (noVersion : Bool) (objRefs : List ObjectRef) (stateRefs : List StateRef)
    (pvs : List Vulnerability) (st : St) (i : Nat) :
    perPair (withoutObject root oref) noVersion objRefs stateRefs pvs st i =
      perPair root noVersion objRefs stateRefs pvs st i := by
  cases ho : objRefs[i]? with
  | none => simp [perPair, ho]
  | some o =>
    by_cases horef : o.ObjectRef = oref
    · rw [perPair_variable_lookup_failed root hc oref obj nm e hobj hname href hvar noVersion
        objRefs stateRefs pvs st i o ho horef]
      unfold perPair
      simp only [ho, horef, dpkgObjectLookup_withoutObject_self]
    · unfold perPair
      simp only [ho, dpkgObjectLookup_withoutObject_ne root oref o.ObjectRef horef,
        dpkgStateLookup_withoutObject, expandPair_withoutObject]

theorem perDef_withoutObject (root : Root) (hc : root.consistent = true)
    (oref : String) (obj : DpkgInfoObject) (nm : DpkgName) (e : Err)
    (hobj : dpkgObjectLookup root oref = .ok (.ok obj))
    (hname : obj.Name = some nm) (href : 0 < nm.Ref.length)
    (hvar : root.Variables.Lookup nm.Ref = .error e)
    (protoVulns : ProtoVulnsFunc) (st : St) (d : Definition) :
    perDef (withoutObject root oref) protoVulns st d = perDef root protoVulns st d := by
  have hpair : ∀ nv objRefs stateRefs pvs (s : St),
      (List.range (List.length objRefs)).foldlM
        (perPair (withoutObject root oref) nv objRefs stateRefs pvs) s =
      (List.range (List.length objRefs)).foldlM (perPair root nv objRefs stateRefs pvs) s :=
    fun nv objRefs stateRefs pvs s => foldlM_congr_fun _ _ _ s
      (fun i _ t => perPair_withoutObject root hc oref obj nm e hobj hname href hvar nv
        objRefs stateRefs pvs t i)
  have hcri : ∀ pvs n (s : St) (c : Criterion),
      perCriterion (withoutObject root oref) pvs n s c = perCriterion root pvs n s c := by
    intro pvs n s c
    unfold perCriterion
    have ht : TestLookup (withoutObject root oref) c.TestRef = TestLookup root c.TestRef := rfl
    rw [ht]
    cases TestLookup root c.TestRef with
    | error e1 => rfl
    | ok t =>
      simp only [hpair]
  unfold perDef
  cases protoVulns d with
  | error e1 => rfl
  | ok pvs =>
    simp only
    exact foldlM_congr_fun _ _ _ st (fun c _ t => hcri pvs _ t c)

/-! ## The run follows the emissions -/

theorem tracksEmits_skip (s : St) (pre : List Emission) (h : Emits s pre) :
    TracksEmits (.ok s) pre (.ok []) :=
  ⟨s, rfl, by simpa using h⟩

theorem perName_tracksEmits (state : Option DpkgInfoState) (pv : Vulnerability) (st : St)
    (pre : List Emission) (hpre : Emits st pre) (n : String) :
    TracksEmits (perName state pv st n) pre (nameEmits state pv n) := by
  obtain ⟨hfault, hok⟩ := applyState_cases state pv st.heap
  unfold nameEmits
  cases hw : writeFault state pv with
  | some f =>
    simp only [TracksEmits, perName, hfault f hw]
  | none =>
    obtain ⟨heap1, happ, _⟩ := hok hw
    simp only [TracksEmits, perName, happ]
    obtain ⟨⟨a0, ha0⟩, hv0, hle0⟩ := attachPackage_spec (stateWrites state pv) heap1 st n
    refine ⟨_, rfl, ?_, ?_⟩
    · rw [hv0, hpre.vulns, List.map_append]
      congr 1
      apply List.map_congr_left
      intro e he
      obtain ⟨a, ha⟩ := hpre.cached e he
      exact emitted_mono hle0 e.copy e.name a ha
    · intro e he
      rcases List.mem_append.mp he with he | he
      · obtain ⟨a, ha⟩ := hpre.cached e he
        exact ⟨a, hle0 _ _ ha⟩
      · simp only [List.mem_singleton] at he
        subst he
        exact ⟨a0, ha0⟩

theorem foldlM_tracksEmits {α : Type} (f : St → α → Except Fault St)
    (g : α → Except Fault (List Emission)) :
    ∀ (xs : List α) (s : St) (pre : List Emission), Emits s pre →
      (∀ t p, Emits t p → ∀ x ∈ xs, TracksEmits (f t x) p (g x)) →
      TracksEmits (xs.foldlM f s) pre (collect g xs)
  | [], s, pre, hs, _ => tracksEmits_skip s pre hs
  | x :: xs, s, pre, hs, h => by
    have hx := h s pre hs x (List.mem_cons_self x xs)
    simp only [List.foldlM_cons, bind, Except.bind, collect, appendOutcome]
    cases hg : g x with
    | error e =>
      simp only [hg, TracksEmits] at hx ⊢
      simp [hx]
    | ok es =>
      simp only [hg, TracksEmits] at hx
      obtain ⟨s1, hs1, he1⟩ := hx
      have ih := foldlM_tracksEmits f g xs s1 (pre ++ es) he1
        (fun t p ht y hy => h t p ht y (List.mem_cons_of_mem x hy))
      simp only [hs1]
      cases hc : collect g xs with
      | error e =>
        simp only [hc, TracksEmits] at ih ⊢
        exact ih
      | ok ws =>
        simp only [hc, TracksEmits] at ih ⊢
        obtain ⟨s2, hs2, he2⟩ := ih
        exact ⟨s2, hs2, by rw [← List.append_assoc]; exact he2⟩

theorem perProto_tracksEmits (root : Root) (object : DpkgInfoObject)
    (state : Option DpkgInfoState) (pv : Vulnerability) (st : St) (pre : List Emission)
    (hpre : Emits st pre) :
    TracksEmits (perProto root object state st pv) pre (protoEmits root object state pv) := by
  unfold perProto protoEmits
  cases hr : resolveNames root object.Name with
  | error f => simp [TracksEmits]
  | ok r =>
    cases r with
    | none => exact tracksEmits_skip st pre hpre
    | some ns =>
      exact foldlM_tracksEmits _ _ ns st pre hpre
        (fun t p ht n _ => perName_tracksEmits state pv t p ht n)

theorem expandPair_tracksEmits (root : Root) (object : DpkgInfoObject)
    (state : Option DpkgInfoState) (pvs : List Vulnerability) (st : St)
    (pre : List Emission) (hpre : Emits st pre) :
    TracksEmits (expandPair root object state pvs st) pre
      (expandEmits root object state pvs) := by
  have hloop : ∀ sto, TracksEmits (pvs.foldlM (perProto root object sto) st) pre
      (collect (protoEmits root object sto) pvs) := fun sto =>
    foldlM_tracksEmits _ _ pvs st pre hpre
      (fun t p ht pv _ => perProto_tracksEmits root object sto pv t p ht)
  unfold expandPair expandEmits
  cases state with
  | none => exact hloop none
  | some s =>
    simp only
    split
    · exact tracksEmits_skip st pre hpre
    · exact hloop (some s)

theorem perPair_tracksEmits (root : Root) (noVersion : Bool) (objRefs : List ObjectRef)
    (stateRefs : List StateRef) (pvs : List Vulnerability) (st : St) (pre : List Emission)
    (hpre : Emits st pre) (i : Nat) :
    TracksEmits (perPair root noVersion objRefs stateRefs pvs st i) pre
      (pairEmits root noVersion objRefs stateRefs pvs i) := by
  unfold perPair pairEmits
  cases ho : objRefs[i]? with
  | none => simp [TracksEmits]
  | some objRef =>
    simp only
    cases hol : dpkgObjectLookup root objRef.ObjectRef with
    | error f => simp [TracksEmits]
    | ok ro =>
      cases ro with
      | error e => exact tracksEmits_skip st pre hpre
      | ok object =>
        simp only
        cases hs : stateRefs[i]? with
        | none => exact expandPair_tracksEmits root object none pvs st pre hpre
        | some stateRef =>
          simp only
          cases hsl : dpkgStateLookup root stateRef.StateRef with
          | error f => simp [TracksEmits]
          | ok rs =>
            cases rs with
            | error e =>
              simp only
              split
              · exact expandPair_tracksEmits root object none pvs st pre hpre
              · exact tracksEmits_skip st pre hpre
            | ok s => exact expandPair_tracksEmits root object (some s) pvs st pre hpre

theorem perCriterion_tracksEmits (root : Root) (pvs : List Vulnerability) (ncris : Nat)
    (st : St) (pre : List Emission) (hpre : Emits st pre) (c : Criterion) :
    TracksEmits (perCriterion root pvs ncris st c) pre (criterionEmits root pvs ncris c) := by
  have hloop : ∀ (nv : Bool) (t : Test), TracksEmits
      ((List.range t.ObjectRefs.length).foldlM
        (perPair root nv t.ObjectRefs t.StateRefs pvs) st) pre
      (collect (pairEmits root nv t.ObjectRefs t.StateRefs pvs)
        (List.range t.ObjectRefs.length)) := fun nv t =>
    foldlM_tracksEmits _ _ _ st pre hpre
      (fun s p hs i _ => perPair_tracksEmits root nv _ _ pvs s p hs i)
  unfold perCriterion criterionEmits
  cases ht : TestLookup root c.TestRef with
  | error e => exact tracksEmits_skip st pre hpre
  | ok t =>
    simp only
    split
    · exact hloop true t
    · split
      · exact tracksEmits_skip st pre hpre
      · split
        · exact tracksEmits_skip st pre hpre
        · exact hloop false t

theorem perDef_tracksEmits (root : Root) (protoVulns : ProtoVulnsFunc) (st : St)
    (pre : List Emission) (hpre : Emits st pre) (d : Definition) :
    TracksEmits (perDef root protoVulns st d) pre (defEmits root protoVulns d) := by
  unfold perDef defEmits
  cases hp : protoVulns d with
  | error e => exact tracksEmits_skip st pre hpre
  | ok pvs =>
    exact foldlM_tracksEmits _ _ _ st pre hpre
      (fun s p hs c _ => perCriterion_tracksEmits root pvs _ s p hs c)

/-- A completed run has appended exactly the emissions of the translation, each pointing to
the cache entry of the name it was resolved for. -/
theorem run_emits (root : Root) (protoVulns : ProtoVulnsFunc) (heap : List Package) (st : St)
    (h : run root protoVulns heap = .ok st) :
    ∃ es, translateEmits root protoVulns root.Definitions = .ok es ∧ Emits st es := by
  have hinit : Emits (St.init heap) [] := ⟨by simp [St.init], by simp⟩
  have ht := foldlM_tracksEmits (perDef root protoVulns) (defEmits root protoVulns)
    root.Definitions (St.init heap) [] hinit
    (fun s p hs d _ => perDef_tracksEmits root protoVulns s p hs d)
  unfold translateEmits
  unfold run at h
  cases hc : collect (defEmits root protoVulns) root.Definitions with
  | error e =>
    simp only [hc, TracksEmits] at ht
    rw [h] at ht
    cases ht
  | ok es =>
    simp only [hc, TracksEmits] at ht
    obtain ⟨s1, hs1, he⟩ := ht
    rw [h] at hs1
    cases hs1
    exact ⟨es, rfl, by simpa using he⟩

/-! ## Theorems -/

/-- C1. End-to-end translation: a document with one definition whose criteria flatten to one
criterion, whose test pairs one dpkginfo object of literal name `n` with one dpkginfo state
of EVR `e` and no arch, and for which the factory returns one prototype, yields a nil error
and exactly one vulnerability: the prototype with its `Package` pointing to a fresh package
`Name = n`, `Kind = BINARY` and its `FixedInVersion` set to `e`. -/
theorem DpkgDefsToVulns_end_to_end (root : Root) (protoVulns : ProtoVulnsFunc)
    (heap : List Package) (d : Definition) (c : Criterion) (t : Test) (o : ObjectRef)
    (s : StateRef) (obj : DpkgInfoObject) (nm : DpkgName) (stt : DpkgInfoState)
    (pv : Vulnerability) (n e : String)
    (hdefs : root.Definitions = [d]) (hcris : walkCriterion d.Criteria = [c])
    (htest : TestLookup root c.TestRef = .ok t)
    (hobjs : t.ObjectRefs = [o]) (hstates : t.StateRefs = [s])
    (hobj : dpkgObjectLookup root o.ObjectRef = .ok (.ok obj))
    (hname : obj.Name = some nm) (href : nm.Ref = "") (hbody : nm.Body = n)
    (hstate : dpkgStateLookup root s.StateRef = .ok (.ok stt))
    (hevr : stt.EVR = some ⟨e⟩) (harch : stt.Arch = none)
    (hproto : protoVulns d = .ok [pv]) :
    DpkgDefsToVulns root protoVulns heap =
      .ok { vulns := [{ pv with Package := some heap.length, FixedInVersion := e }],
            err := none,
            heap := heap ++ [{ Name := n, Kind := BINARY }] } := by
  simp [DpkgDefsToVulns, run, hdefs, perDef, hproto, hcris, perCriterion, htest, hobjs,
    hstates, List.range_succ, perPair, hobj, hstate, expandPair, hevr, perProto, resolveNames,
    hname, href, hbody, perName, applyState, harch, attachPackage, St.init, Except.map, bind,
    Except.bind, pure, Except.pure]

/-- C1, witness: the scenario with `n = "openssl"` and `e = "1.1.1-1"`. -/
theorem DpkgDefsToVulns_end_to_end_witness :
    DpkgDefsToVulns opensslRoot oneProto [] =
      .ok { vulns := [{ Updater := "test", Name := "def:1", Package := some 0,
                        FixedInVersion := "1.1.1-1" }],
            err := none,
            heap := [{ Name := "openssl", Kind := BINARY }] } :=
  DpkgDefsToVulns_end_to_end opensslRoot oneProto []
    { ID := "def:1", Criteria := .group "AND" [.leaf ⟨"tst:1"⟩] } ⟨"tst:1"⟩
    { ObjectRefs := [⟨"obj:1"⟩], StateRefs := [⟨"ste:1"⟩] } ⟨"obj:1"⟩ ⟨"ste:1"⟩
    { Name := some { Body := "openssl" } } { Body := "openssl" } { EVR := some ⟨"1.1.1-1"⟩ }
    { Updater := "test", Name := "def:1" } "openssl" "1.1.1-1"
    rfl rfl rfl rfl rfl rfl rfl rfl rfl rfl rfl rfl rfl

/-- C2, at the failing input: the state carries `arch = amd64`; the emitted vulnerability
gets `ArchOperation = mapArchOp OpEquals`, but the package it points to (position 1, from
the cache) has an empty `Arch`: the write of `amd64` went to the package of the prototype
(position 0), the pointer the copy held before the cache replaced it. -/
theorem DpkgDefsToVulns_arch_lands_on_prototype_package :
    DpkgDefsToVulns archRoot protoWithPackage templateHeap =
      .ok { vulns := [{ Updater := "test", Name := "def:1", Package := some 1,
                        FixedInVersion := "1.1.1-1",
                        ArchOperation := mapArchOp Operation.OpEquals }],
            err := none,
            heap := [{ Name := "template", Arch := "amd64" },
                     { Name := "openssl", Kind := BINARY, Arch := "" }] } :=
  rfl

/-- C3. Package dedup: a completed run has appended, in order, one vulnerability for every
package name the translation resolved (`translateEmits`), and each of them points to the
entry of the per-run cache for the name it was resolved for, an entry that is a package of
that name; so two vulnerabilities resolved for the same name point to the identical package.
The cache holds one entry per name, two emitted vulnerabilities whose packages have equal
names point to the identical package, and two packages created by the run with equal names
are one and the same. -/
theorem run_package_dedup (root : Root) (protoVulns : ProtoVulnsFunc) (heap : List Package)
    (st : St) (h : run root protoVulns heap = .ok st) :
    DpkgDefsToVulns root protoVulns heap =
        .ok { vulns := st.vulns, err := none, heap := st.heap } ∧
      (∃ es, translateEmits root protoVulns root.Definitions = .ok es ∧
        st.vulns =
          es.map (fun e => { e.copy with Package := List.lookup e.name st.pkgcache }) ∧
        (∀ e ∈ es, ∃ a, List.lookup e.name st.pkgcache = some a ∧
          pkgName st.heap a = some e.name) ∧
        (∀ (i j : Nat) (e1 e2 : Emission) (v1 v2 : Vulnerability),
          es[i]? = some e1 → es[j]? = some e2 →
          st.vulns[i]? = some v1 → st.vulns[j]? = some v2 →
          e1.name = e2.name → v1.Package = v2.Package ∧ v1.Package ≠ none)) ∧
      (st.pkgcache.map Prod.fst).Nodup ∧
      (∀ v ∈ st.vulns, ∃ n a, List.lookup n st.pkgcache = some a ∧ v.Package = some a ∧
        pkgName st.heap a = some n) ∧
      (∀ v1 ∈ st.vulns, ∀ v2 ∈ st.vulns, ∀ a1 a2, v1.Package = some a1 →
        v2.Package = some a2 → pkgName st.heap a1 = pkgName st.heap a2 → a1 = a2) ∧
      (∀ a1 a2 p1 p2, heap.length ≤ a1 → heap.length ≤ a2 → st.heap[a1]? = some p1 →
        st.heap[a2]? = some p2 → p1.Name = p2.Name → a1 = a2) := by
  have hinv := run_inv root protoVulns heap st h
  obtain ⟨es, hes, hem⟩ := run_emits root protoVulns heap st h
  have hvul : st.vulns =
      es.map (fun e => { e.copy with Package := List.lookup e.name st.pkgcache }) := hem.vulns
  have hcached : ∀ v ∈ st.vulns, ∃ n a, List.lookup n st.pkgcache = some a ∧
      v.Package = some a ∧ pkgName st.heap a = some n := by
    intro v hv
    obtain ⟨n, a, hn, hva⟩ := hinv.cached v hv
    exact ⟨n, a, hn, hva, hinv.named n a hn⟩
  refine ⟨?_, ⟨es, hes, hvul, ?_, ?_⟩, hinv.nodup, hcached, ?_, ?_⟩
  · simp [DpkgDefsToVulns, h, Except.map]
  · intro e he
    obtain ⟨a, ha⟩ := hem.cached e he
    exact ⟨a, ha, hinv.named _ a ha⟩
  · intro i j e1 e2 v1 v2 h1 h2 hv1 hv2 hname
    rw [hvul, List.getElem?_map, h1] at hv1
    rw [hvul, List.getElem?_map, h2] at hv2
    simp only [Option.map_some'] at hv1 hv2
    cases hv1
    cases hv2
    obtain ⟨a, ha⟩ := hem.cached e1 (List.mem_iff_getElem?.mpr ⟨i, h1⟩)
    simp [← hname, ha]
  · intro v1 hv1 v2 hv2 a1 a2 h1 h2 hname
    obtain ⟨n1, b1, hn1, hb1, hnm1⟩ := hcached v1 hv1
    obtain ⟨n2, b2, hn2, hb2, hnm2⟩ := hcached v2 hv2
    rw [h1] at hb1
    rw [h2] at hb2
    cases hb1
    cases hb2
    rw [hnm1, hnm2] at hname
    cases hname
    rw [hn1] at hn2
    exact Option.some.inj hn2
  · intro a1 a2 p1 p2 hb1 hb2 hp1 hp2 hname
    have h1 := hinv.created a1 p1 hb1 hp1
    have h2 := hinv.created a2 p2 hb2 hp2
    rw [hname, h2] at h1
    exact (Option.some.inj h1).symm

/-- C3, witness: three criteria resolve to `bash`, `openssl` and `bash`; the run creates two
packages, and the first and the third vulnerability point to the one package `bash`. -/
theorem run_package_dedup_witness :
    DpkgDefsToVulns bashOpensslRoot oneProto [] =
        .ok { vulns := bashOpensslFinal.vulns, err := none, heap := bashOpensslFinal.heap } ∧
      (∃ es, translateEmits bashOpensslRoot oneProto bashOpensslRoot.Definitions = .ok es ∧
        bashOpensslFinal.vulns =
          es.map (fun e =>
            { e.copy with Package := List.lookup e.name bashOpensslFinal.pkgcache }) ∧
        (∀ e ∈ es, ∃ a, List.lookup e.name bashOpensslFinal.pkgcache = some a ∧
          pkgName bashOpensslFinal.heap a = some e.name) ∧
        (∀ (i j : Nat) (e1 e2 : Emission) (v1 v2 : Vulnerability),
          es[i]? = some e1 → es[j]? = some e2 →
          bashOpensslFinal.vulns[i]? = some v1 → bashOpensslFinal.vulns[j]? = some v2 →
          e1.name = e2.name → v1.Package = v2.Package ∧ v1.Package ≠ none)) ∧
      translateEmits bashOpensslRoot oneProto bashOpensslRoot.Definitions =
        .ok [{ copy := { Updater := "test", Name := "def:1", FixedInVersion := "1.0" },
               name := "bash" },
             { copy := { Updater := "test", Name := "def:1", FixedInVersion := "1.0" },
               name := "openssl" },
             { copy := { Updater := "test", Name := "def:1", FixedInVersion := "2.0" },
               name := "bash" }] ∧
      bashOpensslFinal.vulns.map (fun v => v.Package) = [some 0, some 1, some 0] :=
  ⟨(run_package_dedup bashOpensslRoot oneProto [] bashOpensslFinal rfl).1,
   (run_package_dedup bashOpensslRoot oneProto [] bashOpensslFinal rfl).2.1,
   rfl, rfl⟩

/-- Variable fan-out away from the architecture write: for an object that names its
package through a variable that resolves to the constant variable `cv`, every completed
expansion of a prototype has appended exactly one vulnerability per value of `cv`, the j-th
pointing to a package named by the j-th value, and vulnerabilities for distinct values point
to distinct packages. The expansion completes when the state of the pair, if any, has an EVR
and, if it has an arch, the prototype has a package for dpkg.go:134 to write to. -/
theorem perProto_variable_fan_out (base : Nat) (root : Root) (object : DpkgInfoObject)
    (nm : DpkgName) (state : Option DpkgInfoState) (pv : Vulnerability) (st : St)
    (kind : String) (i : Nat) (cv : ConstantVariable)
    (hinv : St.Inv base st)
    (hname : object.Name = some nm)
    (href : 0 < nm.Ref.length)
    (hvar : root.Variables.Lookup nm.Ref = .ok (kind, i))
    (hcv : root.Variables.ConstantVariables[i]? = some cv) :
    (∀ st1, perProto root object state st pv = .ok st1 →
      ∃ new, st1.vulns = st.vulns ++ new ∧
        new.length = cv.Values.length ∧
        new.map (fun v => v.Package.bind (pkgName st1.heap)) =
          cv.Values.map (fun x => some x.Body) ∧
        (∀ (j1 j2 : Nat) (v1 v2 : Vulnerability) (x1 x2 : Value), new[j1]? = some v1 →
          new[j2]? = some v2 → cv.Values[j1]? = some x1 → cv.Values[j2]? = some x2 →
          x1.Body ≠ x2.Body → v1.Package ≠ v2.Package)) ∧
      ((∀ s, state = some s → s.EVR ≠ none ∧ (s.Arch ≠ none → pv.Package ≠ none)) →
        ∃ st1, perProto root object state st pv = .ok st1) := by
  have hr : resolveNames root object.Name = .ok (some (cv.Values.map (fun x => x.Body))) := by
    simp [resolveNames, hname, href, hvar, hcv]
  constructor
  · intro st1 hrun
    have hfold : (cv.Values.map (fun x => x.Body)).foldlM (perName state pv) st = .ok st1 := by
      simpa [perProto, hr] using hrun
    obtain ⟨_, hall, hv⟩ := perName_fold_ok state pv _ st st1 hfold
    have hinv1 := perProto_inv base root object state st pv st1 hinv hrun
    have hnames : (List.map (emitted st1.pkgcache (stateWrites state pv))
        (List.map (fun x => x.Body) cv.Values)).map
          (fun v => v.Package.bind (pkgName st1.heap)) =
        cv.Values.map (fun x => some x.Body) := by
      rw [emitted_names base st1 hinv1 (stateWrites state pv) _ hall, List.map_map]
      rfl
    refine ⟨_, hv, by simp, hnames, ?_⟩
    intro j1 j2 v1 v2 x1 x2 h1 h2 hx1 hx2 hne hp
    have e1 := congrArg (fun l => l[j1]?) hnames
    have e2 := congrArg (fun l => l[j2]?) hnames
    simp only [List.getElem?_map, h1, h2, hx1, hx2, Option.map_some', Function.comp_apply,
      Option.some.injEq] at e1 e2
    rw [hp, e2] at e1
    exact hne (Option.some.inj e1).symm
  · intro hsafe
    obtain ⟨st1, hrun, _⟩ := perProto_spec root object state pv st _ hr
      (fun s hs => (hsafe s hs).1) (fun s hs => (hsafe s hs).2)
    exact ⟨st1, hrun⟩

/-- C4, at the failing input: the object of `fanOutArchRoot` names its packages through the
constant variable `["a","b","c"]`, its one state has an EVR and an arch, and the factory
returns one prototype whose `Package` is unset: the first of the three expansions
dereferences the nil pointer at dpkg.go:134 and no vulnerability is emitted. The same
document without the arch (`fanOutRoot`) gives the three vulnerabilities, pointing to the
packages `a`, `b`, `c`. -/
theorem DpkgDefsToVulns_fan_out_nil_package :
    DpkgDefsToVulns fanOutArchRoot oneProto [] = .error Fault.nilDeref ∧
      DpkgDefsToVulns fanOutRoot oneProto [] =
        .ok { vulns := fanOutFinal.vulns, err := none, heap := fanOutFinal.heap } ∧
      fanOutFinal.vulns.map (fun v => v.Package.bind (pkgName fanOutFinal.heap)) =
        [some "a", some "b", some "c"] :=
  ⟨rfl, rfl, rfl⟩

/-- C5. Existence-only rule: for a definition whose criteria flatten to one criterion, whose
test has one object reference, resolving to a dpkginfo object, and no state reference, the
run appends, for every prototype in order, one vulnerability per resolved name in order; each
is its prototype with only the `Package` pointer replaced by the cache entry of the name, so
the engine sets no fixed-in version and no architecture operation, and both are empty when
the prototypes leave them empty. -/
theorem perDef_existence_only (base : Nat) (root : Root) (protoVulns : ProtoVulnsFunc)
    (st : St) (d : Definition) (c : Criterion) (t : Test) (o : ObjectRef)
    (obj : DpkgInfoObject) (pvs : List Vulnerability) (r : Option (List String))
    (hinv : St.Inv base st)
    (hproto : protoVulns d = .ok pvs)
    (hcris : walkCriterion d.Criteria = [c])
    (htest : TestLookup root c.TestRef = .ok t)
    (hobjs : t.ObjectRefs = [o]) (hstates : t.StateRefs = [])
    (hobj : dpkgObjectLookup root o.ObjectRef = .ok (.ok obj))
    (hnames : resolveNames root obj.Name = .ok r) :
    ∃ st1 new, perDef root protoVulns st d = .ok st1 ∧
      st1.vulns = st.vulns ++ new ∧
      new = pvs.flatMap (fun pv => (r.getD []).map (fun n =>
        { pv with Package := List.lookup n st1.pkgcache })) ∧
      (pvs ≠ [] → ∀ n ∈ r.getD [], ∃ a, List.lookup n st1.pkgcache = some a ∧
        pkgName st1.heap a = some n) ∧
      ((∀ pv ∈ pvs, pv.FixedInVersion = "" ∧ pv.ArchOperation = ArchOp.OpNone) →
        ∀ v ∈ new, v.FixedInVersion = "" ∧ v.ArchOperation = ArchOp.OpNone) := by
  have hstep : perDef root protoVulns st d = pvs.foldlM (perProto root obj none) st := by
    simp [perDef, hproto, hcris, perCriterion, htest, hobjs, hstates, List.range_succ, perPair,
      hobj, expandPair, bind, Except.bind, pure, Except.pure]
    cases pvs.foldlM (perProto root obj none) st <;> rfl
  obtain ⟨st1, hfold, _, hall, hv⟩ := perProto_fold root obj none r hnames
    (by intro s hs; cases hs) pvs st (by intro pv _ s hs; cases hs)
  have hrun : perDef root protoVulns st d = .ok st1 := hstep.trans hfold
  have hinv1 := perDef_inv base root protoVulns st d st1 hinv hrun
  refine ⟨st1, _, hrun, hv, rfl, ?_, ?_⟩
  · intro hne n hn
    obtain ⟨a, ha⟩ := hall hne n hn
    exact ⟨a, ha, hinv1.named n a ha⟩
  · intro hblank v hv
    simp only [List.mem_flatMap, List.mem_map] at hv
    obtain ⟨pv, hpv, n, _, rfl⟩ := hv
    exact hblank pv hpv

/-- C5, witness: one criterion, one object `openssl`, no state: one vulnerability with no
fixed-in version and no architecture operation. -/
theorem perDef_existence_only_witness :
    (∃ st1 new, perDef installedRoot oneProto (St.init [])
        { ID := "def:1", Criteria := .group "AND" [.leaf ⟨"tst:1"⟩] } = .ok st1 ∧
      st1.vulns = (St.init []).vulns ++ new ∧
      new = ([{ Updater := "test", Name := "def:1" }] : List Vulnerability).flatMap (fun pv =>
        ((some ["openssl"]).getD []).map (fun n =>
          { pv with Package := List.lookup n st1.pkgcache })) ∧
      (([{ Updater := "test", Name := "def:1" }] : List Vulnerability) ≠ [] →
        ∀ n ∈ (some ["openssl"]).getD [], ∃ a, List.lookup n st1.pkgcache = some a ∧
          pkgName st1.heap a = some n) ∧
      ((∀ pv ∈ ([{ Updater := "test", Name := "def:1" }] : List Vulnerability),
          pv.FixedInVersion = "" ∧ pv.ArchOperation = ArchOp.OpNone) →
        ∀ v ∈ new, v.FixedInVersion = "" ∧ v.ArchOperation = ArchOp.OpNone)) ∧
    DpkgDefsToVulns installedRoot oneProto [] =
      .ok { vulns := [{ Updater := "test", Name := "def:1", Package := some 0,
                        FixedInVersion := "", ArchOperation := ArchOp.OpNone }],
            err := none,
            heap := [{ Name := "openssl", Kind := BINARY }] } :=
  ⟨perDef_existence_only 0 installedRoot oneProto (St.init [])
      { ID := "def:1", Criteria := .group "AND" [.leaf ⟨"tst:1"⟩] } ⟨"tst:1"⟩
      { ObjectRefs := [⟨"obj:1"⟩], StateRefs := [] } ⟨"obj:1"⟩ { Name := some { Body := "openssl" } }
      [{ Updater := "test", Name := "def:1" }] (some ["openssl"]) (init_inv [])
      rfl rfl rfl rfl rfl rfl rfl,
   rfl⟩

/-- C6. Pairing skip rule: in a definition whose flattened criteria list has more than one
criterion, a criterion whose test has exactly one object reference and no state reference
leaves the state of the run as it is, whatever the object resolves to, and the definition
yields what its other criteria yield. -/
theorem perCriterion_object_without_state (root : Root) (protoVulns : ProtoVulnsFunc)
    (pvs : List Vulnerability) (st : St) (d : Definition) (c : Criterion) (t : Test)
    (l1 l2 : List Criterion)
    (hproto : protoVulns d = .ok pvs)
    (hcris : walkCriterion d.Criteria = l1 ++ c :: l2)
    (hmany : 1 < (walkCriterion d.Criteria).length)
    (htest : TestLookup root c.TestRef = .ok t)
    (hobjs : t.ObjectRefs.length = 1) (hstates : t.StateRefs.length = 0) :
    (∀ s, perCriterion root pvs (walkCriterion d.Criteria).length s c = .ok s) ∧
      perDef root protoVulns st d =
        (l1 ++ l2).foldlM (perCriterion root pvs (walkCriterion d.Criteria).length) st := by
  have hskip : ∀ s, perCriterion root pvs (walkCriterion d.Criteria).length s c = .ok s := by
    intro s
    have hne : (walkCriterion d.Criteria).length ≠ 1 := by omega
    simp [perCriterion, htest, hne, hobjs, hstates]
  refine ⟨hskip, ?_⟩
  simp only [perDef, hproto]
  rw [hcris] at hskip ⊢
  exact foldlM_skip _ c hskip l2 l1 st

/-- C6, witness: of the two criteria of `mixedRoot` the first has one object reference and no
state reference; only the second yields a vulnerability. -/
theorem perCriterion_object_without_state_witness :
    ((∀ s, perCriterion mixedRoot [{ Updater := "test", Name := "def:1" }]
        (walkCriterion (Criteria.group "AND" [.leaf ⟨"tst:1"⟩, .leaf ⟨"tst:2"⟩])).length s
        ⟨"tst:1"⟩ = .ok s) ∧
      perDef mixedRoot oneProto (St.init [])
          { ID := "def:1", Criteria := .group "AND" [.leaf ⟨"tst:1"⟩, .leaf ⟨"tst:2"⟩] } =
        ([] ++ [Criterion.mk "tst:2"]).foldlM (perCriterion mixedRoot [{ Updater := "test", Name := "def:1" }]
          (walkCriterion (Criteria.group "AND" [.leaf ⟨"tst:1"⟩, .leaf ⟨"tst:2"⟩])).length)
          (St.init [])) ∧
    DpkgDefsToVulns mixedRoot oneProto [] =
      .ok { vulns := [{ Updater := "test", Name := "def:1", Package := some 0,
                        FixedInVersion := "1.1.1-1" }],
            err := none,
            heap := [{ Name := "openssl", Kind := BINARY }] } :=
  ⟨perCriterion_object_without_state mixedRoot oneProto [{ Updater := "test", Name := "def:1" }]
      (St.init []) { ID := "def:1", Criteria := .group "AND" [.leaf ⟨"tst:1"⟩, .leaf ⟨"tst:2"⟩] }
      ⟨"tst:1"⟩ { ObjectRefs := [⟨"obj:1"⟩], StateRefs := [] } [] [⟨"tst:2"⟩]
      rfl rfl (by decide) rfl rfl rfl,
   rfl⟩

/-- C7. Missing EVR skip: when the object of a pair is looked up without a fault and the
state reference of the pair resolves to a dpkginfo state without EVR, the pair leaves the
state of the run as it is, for every list of prototypes, with `noVersion` set or not. -/
theorem perPair_state_without_evr (root : Root) (noVersion : Bool) (objRefs : List ObjectRef)
    (stateRefs : List StateRef) (pvs : List Vulnerability) (st : St) (i : Nat)
    (o : ObjectRef) (s : StateRef) (r : Except Err DpkgInfoObject) (stt : DpkgInfoState)
    (ho : objRefs[i]? = some o) (hs : stateRefs[i]? = some s)
    (hobj : dpkgObjectLookup root o.ObjectRef = .ok r)
    (hstate : dpkgStateLookup root s.StateRef = .ok (.ok stt))
    (hevr : stt.EVR = none) :
    perPair root noVersion objRefs stateRefs pvs st i = .ok st := by
  cases r with
  | error e => simp [perPair, ho, hobj]
  | ok obj => simp [perPair, ho, hs, hobj, hstate, expandPair, hevr]

/-- C7, witness: the pair of `noEvrRoot`, whose state has no EVR, with one criterion
(`noVersion` set) and with several (`noVersion` not set). -/
theorem perPair_state_without_evr_witness :
    perPair noEvrRoot true [⟨"obj:1"⟩] [⟨"ste:1"⟩] [{ Updater := "test" }] (St.init []) 0 =
        .ok (St.init []) ∧
      perPair noEvrRoot false [⟨"obj:1"⟩] [⟨"ste:1"⟩] [{ Updater := "test" }] (St.init []) 0 =
        .ok (St.init []) :=
  ⟨perPair_state_without_evr noEvrRoot true [⟨"obj:1"⟩] [⟨"ste:1"⟩] [{ Updater := "test" }]
      (St.init []) 0 ⟨"obj:1"⟩ ⟨"ste:1"⟩ (.ok { Name := some { Body := "openssl" } })
      { ID := "ste:1" } rfl rfl rfl rfl rfl,
   perPair_state_without_evr noEvrRoot false [⟨"obj:1"⟩] [⟨"ste:1"⟩] [{ Updater := "test" }]
      (St.init []) 0 ⟨"obj:1"⟩ ⟨"ste:1"⟩ (.ok { Name := some { Body := "openssl" } })
      { ID := "ste:1" } rfl rfl rfl rfl rfl⟩

/-- C8. Partial-failure isolation: in a definition with at least three flattened criteria, a
criterion whose test reference is not found, or whose test has different counts of object
and state references, changes nothing: the definition yields what the same definition
without that criterion yields, so does the whole run, and the error a run returns is nil. -/
theorem DpkgDefsToVulns_malformed_criterion_isolated (root : Root)
    (protoVulns : ProtoVulnsFunc) (heap : List Package) (d d1 : Definition)
    (ds1 ds2 : List Definition) (c : Criterion) (l1 l2 : List Criterion)
    (hdefs : root.Definitions = ds1 ++ d :: ds2)
    (hcris : walkCriterion d.Criteria = l1 ++ c :: l2)
    (hlen : 3 ≤ (walkCriterion d.Criteria).length)
    (hbad : (∃ e, TestLookup root c.TestRef = .error e) ∨
      (∃ t, TestLookup root c.TestRef = .ok t ∧ t.ObjectRefs.length ≠ t.StateRefs.length))
    (hcris1 : walkCriterion d1.Criteria = l1 ++ l2)
    (hproto : protoVulns d1 = protoVulns d) :
    (∀ st, perDef root protoVulns st d = perDef root protoVulns st d1) ∧
      DpkgDefsToVulns root protoVulns heap =
        DpkgDefsToVulns { root with Definitions := ds1 ++ d1 :: ds2 } protoVulns heap ∧
      (∀ out, DpkgDefsToVulns root protoVulns heap = .ok out → out.err = none) := by
  have hn : (l1 ++ c :: l2).length ≠ 1 := by rw [← hcris]; omega
  have hm : (l1 ++ l2).length ≠ 1 := by
    have : (l1 ++ c :: l2).length = (l1 ++ l2).length + 1 := by
      simp only [List.length_append, List.length_cons]
      omega
    rw [← hcris] at this
    omega
  have hdef : ∀ st, perDef root protoVulns st d = perDef root protoVulns st d1 := by
    intro st
    simp only [perDef, hproto, hcris, hcris1]
    cases protoVulns d with
    | error e => rfl
    | ok pvs =>
      simp only
      have hskip : ∀ s, perCriterion root pvs (l1 ++ c :: l2).length s c = .ok s := by
        intro s
        rcases hbad with ⟨e, he⟩ | ⟨t, ht, hne⟩
        · simp [perCriterion, he]
        · simp only [perCriterion, ht, hn, if_false]
          by_cases h1 : t.ObjectRefs.length = 1 ∧ t.StateRefs.length = 0
          · simp [h1]
          · simp [h1, hne]
      rw [foldlM_skip _ c hskip l2 l1 st]
      exact foldlM_congr_fun _ _ _ st
        (fun x _ s => perCriterion_count root pvs _ _ hn hm s x)
  refine ⟨hdef, ?_, ?_⟩
  · simp only [DpkgDefsToVulns, run, hdefs, perDef_definitions]
    rw [foldlM_replace (perDef root protoVulns) d d1 hdef ds2 ds1 (St.init heap)]
  · intro out hout
    simp only [DpkgDefsToVulns, Except.map] at hout
    cases hr : run root protoVulns heap with
    | error f => simp [hr] at hout
    | ok st =>
      simp only [hr, Except.ok.injEq] at hout
      rw [← hout]

/-- C8, witness: five criteria, the third refers to a missing test; the run returns a nil
error and the four vulnerabilities of the other criteria. -/
theorem DpkgDefsToVulns_malformed_criterion_isolated_witness :
    DpkgDefsToVulns (fiveRootWith [fiveDef]) oneProto [] =
        DpkgDefsToVulns (fiveRootWith [fourDef]) oneProto [] ∧
      DpkgDefsToVulns (fiveRootWith [fiveDef]) oneProto [] =
        .ok { vulns := [{ Updater := "test", Name := "def:5", Package := some 0,
                          FixedInVersion := "1.0" },
                        { Updater := "test", Name := "def:5", Package := some 1,
                          FixedInVersion := "1.0" },
                        { Updater := "test", Name := "def:5", Package := some 0,
                          FixedInVersion := "2.0" },
                        { Updater := "test", Name := "def:5", Package := some 1,
                          FixedInVersion := "2.0" }],
              err := none,
              heap := [{ Name := "bash", Kind := BINARY },
                       { Name := "openssl", Kind := BINARY }] } :=
  ⟨(DpkgDefsToVulns_malformed_criterion_isolated (fiveRootWith [fiveDef]) oneProto [] fiveDef
      fourDef [] [] ⟨"tst:3"⟩ [⟨"tst:1"⟩, ⟨"tst:2"⟩] [⟨"tst:4"⟩, ⟨"tst:5"⟩] rfl rfl (by decide)
      (Or.inl ⟨_, rfl⟩) rfl rfl).2.1,
   rfl⟩

/-- C9, at the failing input: before the run the package the two prototypes share has an
empty `Arch`; after the run it has `Arch = amd64`, written through the copies. -/
theorem DpkgDefsToVulns_mutates_prototype_package :
    templateHeap[0]? = some { Name := "template", Arch := "" } ∧
      (DpkgDefsToVulns archRoot twoProtosOnePackage templateHeap).map
          (fun out => (out.vulns.map Vulnerability.Package, out.heap[0]?)) =
        .ok ([some 1, some 1], some { Name := "template", Arch := "amd64" }) :=
  ⟨rfl, rfl⟩

/-- C10. Variable-resolution failure: for an object whose name is a variable reference to
an ID that belongs to no constant variable of the document (the variable is missing, or it
is no constant variable and so not in the table), the lookup fails, the expansion of every
pair of that object leaves the state of the run as it is for every state and every list of
prototypes, the pair itself returns without a fault, and the whole run yields what it
yields for the document without that object; a run that returns, returns a nil error. -/
theorem DpkgDefsToVulns_variable_not_resolved (root : Root) (protoVulns : ProtoVulnsFunc)
    (heap : List Package) (oref : String) (obj : DpkgInfoObject) (nm : DpkgName)
    (hc : root.consistent = true)
    (hobj : dpkgObjectLookup root oref = .ok (.ok obj))
    (hname : obj.Name = some nm) (href : 0 < nm.Ref.length)
    (hvar : ∀ cv ∈ root.Variables.ConstantVariables, cv.ID ≠ nm.Ref) :
    root.Variables.Lookup nm.Ref = .error (.notFound nm.Ref) ∧
      (∀ state pvs st, expandPair root obj state pvs st = .ok st) ∧
      (∀ noVersion objRefs stateRefs pvs st i o, objRefs[i]? = some o →
        o.ObjectRef = oref →
        perPair root noVersion objRefs stateRefs pvs st i = .ok st) ∧
      DpkgDefsToVulns root protoVulns heap =
        DpkgDefsToVulns (withoutObject root oref) protoVulns heap ∧
      (∀ out, DpkgDefsToVulns root protoVulns heap = .ok out → out.err = none) := by
  have hl := Variables_Lookup_not_constant root nm.Ref hvar
  refine ⟨hl, ?_, ?_, ?_, ?_⟩
  · intro state pvs st
    exact expandPair_variable_lookup_failed root obj nm state pvs st _ hname href hl
  · intro noVersion objRefs stateRefs pvs st i o ho horef
    exact perPair_variable_lookup_failed root hc oref obj nm _ hobj hname href hl noVersion
      objRefs stateRefs pvs st i o ho horef
  · have hrun : run (withoutObject root oref) protoVulns heap = run root protoVulns heap := by
      unfold run
      exact foldlM_congr_fun _ _ _ _ (fun d _ t =>
        perDef_withoutObject root hc oref obj nm _ hobj hname href hl protoVulns t d)
    simp only [DpkgDefsToVulns, hrun]
  · intro out hout
    simp only [DpkgDefsToVulns, Except.map] at hout
    cases hr : run root protoVulns heap with
    | error f => simp [hr] at hout
    | ok st =>
      simp only [hr, Except.ok.injEq] at hout
      rw [← hout]

/-- C10, witness: in `missingVariableRoot` the object `obj:1` names its package through
`var:1`, which is no constant variable: its pair emits nothing, and the run returns a nil
error and the one vulnerability of the other criterion, as it does without `obj:1`. -/
theorem DpkgDefsToVulns_variable_not_resolved_witness :
    DpkgDefsToVulns missingVariableRoot oneProto [] =
        DpkgDefsToVulns (withoutObject missingVariableRoot "obj:1") oneProto [] ∧
      DpkgDefsToVulns missingVariableRoot oneProto [] =
        .ok { vulns := [{ Updater := "test", Name := "def:1", Package := some 0,
                          FixedInVersion := "1.1.1-1" }],
              err := none,
              heap := [{ Name := "openssl", Kind := BINARY }] } ∧
      perPair missingVariableRoot false [⟨"obj:1"⟩] [⟨"ste:1"⟩]
          [{ Updater := "test", Name := "def:1" }] (St.init []) 0 = .ok (St.init []) :=
  ⟨(DpkgDefsToVulns_variable_not_resolved missingVariableRoot oneProto [] "obj:1"
      { Name := some { Ref := "var:1" } } { Ref := "var:1" } rfl rfl rfl (by decide)
      (by decide)).2.2.2.1,
   rfl,
   (DpkgDefsToVulns_variable_not_resolved missingVariableRoot oneProto [] "obj:1"
      { Name := some { Ref := "var:1" } } { Ref := "var:1" } rfl rfl rfl (by decide)
      (by decide)).2.2.1 false [⟨"obj:1"⟩] [⟨"ste:1"⟩] [{ Updater := "test", Name := "def:1" }]
      (St.init []) 0 ⟨"obj:1"⟩ rfl rfl⟩

/-- C12. Kind dispatch correctness of `dpkgObjectLookup` and `dpkgStateLookup`: (1) a
reference indexed with another kind yields no record and an error that wraps
`errObjectSkip` (resp. `errStateSkip`) and is not a not-found error; (2) a reference absent
from the index yields no record and exactly the not-found error of the index, which is no
skip error; (3) a reference indexed with the expected kind at position `i` yields the
`i`-th record of the dpkg-info table and no error. -/
theorem dpkgLookup_kind_dispatch (root : Root) (ref : String) :
    (∀ kind i, root.Objects.Index.Lookup ref = .ok (kind, i) → kind ≠ "dpkginfo_object" →
      ∃ e, dpkgObjectLookup root ref = .ok (.error e) ∧ Err.Is e .errObjectSkip = true ∧
        ∀ r, Err.Is e (.notFound r) = false) ∧
    (∀ kind i, root.States.Index.Lookup ref = .ok (kind, i) → kind ≠ "dpkginfo_state" →
      ∃ e, dpkgStateLookup root ref = .ok (.error e) ∧ Err.Is e .errStateSkip = true ∧
        ∀ r, Err.Is e (.notFound r) = false) ∧
    (List.lookup ref root.Objects.Index = none →
      root.Objects.Index.Lookup ref = .error (.notFound ref) ∧
      dpkgObjectLookup root ref = .ok (.error (.notFound ref)) ∧
      Err.Is (.notFound ref) .errObjectSkip = false) ∧
    (List.lookup ref root.States.Index = none →
      root.States.Index.Lookup ref = .error (.notFound ref) ∧
      dpkgStateLookup root ref = .ok (.error (.notFound ref)) ∧
      Err.Is (.notFound ref) .errStateSkip = false) ∧
    (∀ i o, root.Objects.Index.Lookup ref = .ok ("dpkginfo_object", i) →
      root.Objects.DpkgInfoObjects[i]? = some o → dpkgObjectLookup root ref = .ok (.ok o)) ∧
    (∀ i s, root.States.Index.Lookup ref = .ok ("dpkginfo_state", i) →
      root.States.DpkgInfoStates[i]? = some s → dpkgStateLookup root ref = .ok (.ok s)) := by
  refine ⟨?_, ?_, ?_, ?_, ?_, ?_⟩
  · intro kind i h hk
    refine ⟨.wrapped ("oval: got kind " ++ kind) .errObjectSkip, ?_, ?_, ?_⟩
    · simp [dpkgObjectLookup, h, hk]
    · simp [Err.Is]
    · intro r
      simp [Err.Is]
  · intro kind i h hk
    refine ⟨.wrapped ("oval: got kind " ++ kind) .errStateSkip, ?_, ?_, ?_⟩
    · simp [dpkgStateLookup, h, hk]
    · simp [Err.Is]
    · intro r
      simp [Err.Is]
  · intro h
    have hl : root.Objects.Index.Lookup ref = .error (.notFound ref) := by
      simp [RefIndex.Lookup, h]
    exact ⟨hl, by simp [dpkgObjectLookup, hl], by simp [Err.Is]⟩
  · intro h
    have hl : root.States.Index.Lookup ref = .error (.notFound ref) := by
      simp [RefIndex.Lookup, h]
    exact ⟨hl, by simp [dpkgStateLookup, hl], by simp [Err.Is]⟩
  · intro i o h ho
    simp [dpkgObjectLookup, h, ho]
  · intro i s h hs
    simp [dpkgStateLookup, h, hs]

/-- C12, witness: in `mixedKindRoot` the rpminfo object `obj:2` and the rpminfo state `ste:2`
give wrong-kind errors, the absent `obj:9` and `ste:9` give not-found errors, and `obj:1`
and `ste:1` give position 0 of their tables. -/
theorem dpkgLookup_kind_dispatch_witness :
    (∃ e, dpkgObjectLookup mixedKindRoot "obj:2" = .ok (.error e) ∧
      Err.Is e .errObjectSkip = true ∧ ∀ r, Err.Is e (.notFound r) = false) ∧
    (∃ e, dpkgStateLookup mixedKindRoot "ste:2" = .ok (.error e) ∧
      Err.Is e .errStateSkip = true ∧ ∀ r, Err.Is e (.notFound r) = false) ∧
    dpkgObjectLookup mixedKindRoot "obj:9" = .ok (.error (.notFound "obj:9")) ∧
    dpkgStateLookup mixedKindRoot "ste:9" = .ok (.error (.notFound "ste:9")) ∧
    dpkgObjectLookup mixedKindRoot "obj:1" = .ok (.ok { Name := some { Body := "openssl" } }) ∧
    dpkgStateLookup mixedKindRoot "ste:1" = .ok (.ok { EVR := some ⟨"1.1.1-1"⟩ }) :=
  ⟨(dpkgLookup_kind_dispatch mixedKindRoot "obj:2").1 "rpminfo_object" 0 rfl (by decide),
   (dpkgLookup_kind_dispatch mixedKindRoot "ste:2").2.1 "rpminfo_state" 0 rfl (by decide),
   ((dpkgLookup_kind_dispatch mixedKindRoot "obj:9").2.2.1 rfl).2.1,
   ((dpkgLookup_kind_dispatch mixedKindRoot "ste:9").2.2.2.1 rfl).2.1,
   (dpkgLookup_kind_dispatch mixedKindRoot "obj:1").2.2.2.2.1 0 _ rfl rfl,
   (dpkgLookup_kind_dispatch mixedKindRoot "ste:1").2.2.2.2.2 0 _ rfl rfl⟩

/-- C15, at the failing input: the index of `archRoot` is consistent and the factory
returns one prototype whose `Package` is unset; the state has an arch, and the write
`vuln.Package.Arch = state.Arch.Body` dereferences the nil pointer of the copy. -/
theorem DpkgDefsToVulns_nil_package_dereferenced :
    archRoot.consistent = true ∧
      oneProto { ID := "def:1", Criteria := .group "AND" [.leaf ⟨"tst:1"⟩] } =
        .ok [{ Updater := "test", Name := "def:1", Package := none }] ∧
      DpkgDefsToVulns archRoot oneProto [] = .error Fault.nilDeref :=
  ⟨rfl, rfl, rfl⟩

/-- C14. State-lookup policy under `noVersion`, for the object reference `i` of a criterion
whose object resolves (names included). (a) With exactly one flattened criterion the test is
not dropped for its reference counts; a missing state reference `i` or a failed state lookup
keeps the pair, which appends every prototype with only its `Package` pointer replaced (no
fixed-in version set by the engine); a state that resolves with an EVR gives every
vulnerability of the pair that EVR as fixed-in version, the pair completing when the
prototypes carry a package whenever the state has an arch. (b) With more than one criterion
and paired references the loop runs with `noVersion` unset, and a failed state lookup
leaves the state of the run as it is, so only that pair is dropped. -/
theorem perPair_state_lookup_policy (root : Root) (pvs : List Vulnerability) (st : St)
    (c : Criterion) (t : Test) (i : Nat) (o : ObjectRef) (obj : DpkgInfoObject)
    (r : Option (List String))
    (htest : TestLookup root c.TestRef = .ok t)
    (ho : t.ObjectRefs[i]? = some o)
    (hobj : dpkgObjectLookup root o.ObjectRef = .ok (.ok obj))
    (hnames : resolveNames root obj.Name = .ok r) :
    (∀ s, perCriterion root pvs 1 s c =
      (List.range t.ObjectRefs.length).foldlM
        (perPair root true t.ObjectRefs t.StateRefs pvs) s) ∧
    ((t.StateRefs[i]? = none ∨ ∃ sr e, t.StateRefs[i]? = some sr ∧
        dpkgStateLookup root sr.StateRef = .ok (.error e)) →
      ∃ st1, perPair root true t.ObjectRefs t.StateRefs pvs st i = .ok st1 ∧
        st1.vulns = st.vulns ++ pvs.flatMap (fun pv => (r.getD []).map (fun n =>
          { pv with Package := List.lookup n st1.pkgcache }))) ∧
    (∀ sr s evr, t.StateRefs[i]? = some sr →
      dpkgStateLookup root sr.StateRef = .ok (.ok s) → s.EVR = some evr →
      (∀ st1, perPair root true t.ObjectRefs t.StateRefs pvs st i = .ok st1 →
        ∃ new, st1.vulns = st.vulns ++ new ∧
          new.length = pvs.length * (r.getD []).length ∧
          ∀ v ∈ new, v.FixedInVersion = evr.Body) ∧
      ((∀ pv ∈ pvs, s.Arch ≠ none → pv.Package ≠ none) →
        ∃ st1, perPair root true t.ObjectRefs t.StateRefs pvs st i = .ok st1)) ∧
    (∀ n s, n ≠ 1 → t.ObjectRefs.length = t.StateRefs.length →
      perCriterion root pvs n s c =
        (List.range t.ObjectRefs.length).foldlM
          (perPair root false t.ObjectRefs t.StateRefs pvs) s) ∧
    (∀ sr e, t.StateRefs[i]? = some sr →
      dpkgStateLookup root sr.StateRef = .ok (.error e) →
      perPair root false t.ObjectRefs t.StateRefs pvs st i = .ok st) := by
  refine ⟨?_, ?_, ?_, ?_, ?_⟩
  · intro s
    simp [perCriterion, htest]
  · intro hlost
    have hstep : perPair root true t.ObjectRefs t.StateRefs pvs st i =
        pvs.foldlM (perProto root obj none) st := by
      rcases hlost with hnone | ⟨sr, e, hsr, hlk⟩
      · simp [perPair, ho, hobj, hnone, expandPair]
      · simp [perPair, ho, hobj, hsr, hlk, expandPair]
    obtain ⟨st1, hfold, _, _, hv⟩ := perProto_fold root obj none r hnames
      (by intro s hs; cases hs) pvs st (by intro pv _ s hs; cases hs)
    exact ⟨st1, hstep.trans hfold, hv⟩
  · intro sr s evr hsr hlk hevr
    have hE : s.EVR.isNone = false := by simp [hevr]
    have hstep : perPair root true t.ObjectRefs t.StateRefs pvs st i =
        pvs.foldlM (perProto root obj (some s)) st := by
      simp [perPair, ho, hobj, hsr, hlk, expandPair, hE]
    constructor
    · intro st1 hrun
      rw [hstep] at hrun
      obtain ⟨_, hv⟩ := perProto_fold_ok root obj (some s) r hnames pvs st st1 hrun
      refine ⟨_, hv, ?_, ?_⟩
      · exact length_flatMap_map _ _ _
      · intro v hv
        simp only [List.mem_flatMap, List.mem_map] at hv
        obtain ⟨pv, _, n, _, rfl⟩ := hv
        cases hA : s.Arch <;> simp [emitted, stateWrites, hevr, hA]
    · intro hsafe
      rw [hstep]
      obtain ⟨st1, hfold, _⟩ := perProto_fold root obj (some s) r hnames
        (by intro s1 hs1; cases hs1; simp [hevr]) pvs st
        (by intro pv hpv s1 hs1; cases hs1; exact hsafe pv hpv)
      exact ⟨st1, hfold⟩
  · intro n s hn hlen
    have h2 : ¬ (t.ObjectRefs.length = 1 ∧ t.StateRefs.length = 0) := by omega
    simp only [perCriterion, htest]
    rw [if_neg hn, if_neg h2, if_neg (not_not.mpr hlen)]
  · intro sr e hsr hlk
    simp [perPair, ho, hobj, hsr, hlk]

/-- C14, witness: in `lostStateRoot` the state reference of pair 0 is absent from the index
and that of pair 1 resolves with EVR `1.1.1-1`: with `noVersion` set pair 0 appends the
prototype with no fixed-in version, and the run gives that vulnerability followed by the one
of pair 1 with fixed-in version `1.1.1-1`. -/
theorem perPair_state_lookup_policy_witness :
    (∃ st1, perPair lostStateRoot true [⟨"obj:1"⟩, ⟨"obj:1"⟩] [⟨"ste:9"⟩, ⟨"ste:1"⟩]
        [{ Updater := "test", Name := "def:1" }] (St.init []) 0 = .ok st1 ∧
      st1.vulns = (St.init []).vulns ++
        ([{ Updater := "test", Name := "def:1" }] : List Vulnerability).flatMap (fun pv =>
          ((some ["openssl"]).getD []).map (fun n =>
            { pv with Package := List.lookup n st1.pkgcache }))) ∧
    perPair lostStateRoot false [⟨"obj:1"⟩, ⟨"obj:1"⟩] [⟨"ste:9"⟩, ⟨"ste:1"⟩]
        [{ Updater := "test", Name := "def:1" }] (St.init []) 0 = .ok (St.init []) ∧
    DpkgDefsToVulns lostStateRoot oneProto [] =
      .ok { vulns := [{ Updater := "test", Name := "def:1", Package := some 0,
                        FixedInVersion := "" },
                      { Updater := "test", Name := "def:1", Package := some 0,
                        FixedInVersion := "1.1.1-1" }],
            err := none,
            heap := [{ Name := "openssl", Kind := BINARY }] } :=
  ⟨(perPair_state_lookup_policy lostStateRoot [{ Updater := "test", Name := "def:1" }]
      (St.init []) ⟨"tst:1"⟩
      { ObjectRefs := [⟨"obj:1"⟩, ⟨"obj:1"⟩], StateRefs := [⟨"ste:9"⟩, ⟨"ste:1"⟩] } 0
      ⟨"obj:1"⟩ { Name := some { Body := "openssl" } } (some ["openssl"]) rfl rfl rfl rfl).2.1
      (Or.inr ⟨⟨"ste:9"⟩, .notFound "ste:9", rfl, rfl⟩),
   (perPair_state_lookup_policy lostStateRoot [{ Updater := "test", Name := "def:1" }]
      (St.init []) ⟨"tst:1"⟩
      { ObjectRefs := [⟨"obj:1"⟩, ⟨"obj:1"⟩], StateRefs := [⟨"ste:9"⟩, ⟨"ste:1"⟩] } 0
      ⟨"obj:1"⟩ { Name := some { Body := "openssl" } } (some ["openssl"]) rfl rfl rfl rfl).2.2.2.2
      ⟨"ste:9"⟩ (.notFound "ste:9") rfl rfl,
   rfl⟩

/-- C11. Driver composition and order, for prototypes that point into the store the run
starts with: as a sequence of vulnerability values the output is the concatenation, in
document order, of the outputs of the single definitions; a definition whose factory call
fails contributes the empty sequence; the translation of `ds1 ++ ds2` is the translation of
`ds1` followed by that of `ds2`; and the output is `translateValues`, which lists the values
by flattened criterion, then pair index, then prototype, then resolved name. A fault of a
part is the fault of the whole. -/
theorem DpkgDefsToVulns_concatenates (root : Root) (protoVulns : ProtoVulnsFunc)
    (heap : List Package)
    (hwf : ∀ d pvs, protoVulns d = .ok pvs → ∀ pv ∈ pvs, ∀ a, pv.Package = some a →
      a < heap.length) :
    (DpkgDefsToVulns root protoVulns heap).map Output.values =
        collect (fun d => (DpkgDefsToVulns { root with Definitions := [d] } protoVulns
          heap).map Output.values) root.Definitions ∧
      (∀ d e, protoVulns d = .error e →
        (DpkgDefsToVulns { root with Definitions := [d] } protoVulns heap).map Output.values =
          .ok []) ∧
      (∀ ds1 ds2,
        (DpkgDefsToVulns { root with Definitions := ds1 ++ ds2 } protoVulns heap).map
            Output.values =
          appendOutcome
            ((DpkgDefsToVulns { root with Definitions := ds1 } protoVulns heap).map
              Output.values)
            ((DpkgDefsToVulns { root with Definitions := ds2 } protoVulns heap).map
              Output.values)) ∧
      (DpkgDefsToVulns root protoVulns heap).map Output.values =
        translateValues root protoVulns root.Definitions := by
  have hval : ∀ ds, (DpkgDefsToVulns { root with Definitions := ds } protoVulns heap).map
      Output.values = collect (defValues root protoVulns) ds := by
    intro ds
    have h := DpkgDefsToVulns_values { root with Definitions := ds } protoVulns heap hwf
    simpa only [translateValues, defValues_definitions] using h
  have hone : (fun d => (DpkgDefsToVulns { root with Definitions := [d] } protoVulns
      heap).map Output.values) = defValues root protoVulns := by
    funext d
    rw [hval [d], collect_singleton]
  refine ⟨?_, ?_, ?_, DpkgDefsToVulns_values root protoVulns heap hwf⟩
  · rw [hone]
    exact DpkgDefsToVulns_values root protoVulns heap hwf
  · intro d e he
    rw [hval [d], collect_singleton]
    simp [defValues, he]
  · intro ds1 ds2
    rw [hval, hval, hval, collect_append]

/-- C11, witness: three definitions, the second of which has no prototypes because its
factory call fails: the output is the value of the first followed by the value of the third,
both referring to the package `openssl`. -/
theorem DpkgDefsToVulns_concatenates_witness :
    (DpkgDefsToVulns
        { dedupRootWith [defWith "def:1" "tst:1"] with
          Definitions := [defWith "def:1" "tst:1", defWith "def:2" "tst:1"] ++
            [defWith "def:3" "tst:2"] }
        pickyProto []).map Output.values =
      appendOutcome
        ((DpkgDefsToVulns
          { dedupRootWith [defWith "def:1" "tst:1"] with
            Definitions := [defWith "def:1" "tst:1", defWith "def:2" "tst:1"] }
          pickyProto []).map Output.values)
        ((DpkgDefsToVulns
          { dedupRootWith [defWith "def:1" "tst:1"] with
            Definitions := [defWith "def:3" "tst:2"] }
          pickyProto []).map Output.values) ∧
    (DpkgDefsToVulns
        (dedupRootWith [defWith "def:1" "tst:1", defWith "def:2" "tst:1",
          defWith "def:3" "tst:2"]) pickyProto []).map Output.values =
      .ok [{ record := { Updater := "test", Name := "def:1", FixedInVersion := "1.1.1-1" },
             package := some { Name := "openssl", Kind := BINARY } },
           { record := { Updater := "test", Name := "def:3", FixedInVersion := "1.1.1-2" },
             package := some { Name := "openssl", Kind := BINARY } }] :=
  ⟨(DpkgDefsToVulns_concatenates (dedupRootWith [defWith "def:1" "tst:1"]) pickyProto []
      (by
        intro d pvs h pv hpv a ha
        unfold pickyProto at h
        split at h
        · cases h
        · simp only [Except.ok.injEq] at h
          subst h
          simp only [List.mem_singleton] at hpv
          subst hpv
          cases ha)).2.2.1
      [defWith "def:1" "tst:1", defWith "def:2" "tst:1"] [defWith "def:3" "tst:2"],
   rfl⟩

/-- C13. Bodhi updater set: for a factory with a root and a client and a list of releases
returned by the API, `UpdaterSet` returns no error and a set whose updater names are exactly
the names `"bodhi-" ++ r.Name` of the releases that are not pending; every updater of the
set is built from a non-pending release of the list, and the names are distinct. -/
theorem Bodhi.UpdaterSet_names (f : Bodhi.Factory)
    (GetReleases : Option String → Option String → Except Bodhi.Error (List Bodhi.release))
    (u cl : String) (rs : List Bodhi.release)
    (hroot : f.root = some u) (hc : f.c = some cl)
    (hapi : GetReleases (some u) (some cl) = .ok rs) :
    (f.UpdaterSet GetReleases).2 = none ∧
      (∀ name, name ∈ (f.UpdaterSet GetReleases).1.Updaters.map Bodhi.Updater.Name ↔
        ∃ r ∈ rs, r.Pending = false ∧ name = "bodhi-" ++ r.Name) ∧
      (∀ x ∈ (f.UpdaterSet GetReleases).1.Updaters,
        x.release ∈ rs ∧ x.release.Pending = false) ∧
      ((f.UpdaterSet GetReleases).1.Updaters.map Bodhi.Updater.Name).Nodup := by
  have hrun : f.UpdaterSet GetReleases =
      (rs.foldl (Bodhi.addRelease f) Bodhi.NewUpdaterSet, none) := by
    simp [Bodhi.Factory.UpdaterSet, hroot, hc, hapi]
  have hempty : Bodhi.NewUpdaterSet.Keyed := ⟨by simp [Bodhi.NewUpdaterSet],
    by simp [Bodhi.NewUpdaterSet]⟩
  obtain ⟨hk, hn, hu⟩ := Bodhi.foldl_addRelease_spec f rs Bodhi.NewUpdaterSet hempty
  rw [hrun]
  simp only
  rw [Bodhi.Keyed_names _ hk]
  refine ⟨trivial, ?_, ?_, hk.nodup⟩
  · intro name
    rw [hn name]
    simp [Bodhi.NewUpdaterSet]
  · intro x hx
    rcases hu x hx with h | h
    · simp [Bodhi.NewUpdaterSet, Bodhi.UpdaterSet.Updaters] at h
    · exact h

/-- C13, witness: a factory configured with an API root and a client, served
`sampleReleases`: the updaters are those of the three releases that are not pending. -/
theorem Bodhi.UpdaterSet_names_witness :
    ((Bodhi.Factory.Configure {} (.ok { API := "http://127.0.0.1:8080" }) (some "client")
        (fun s => .ok s) (some "https://bodhi.fedoraproject.org")).1.UpdaterSet
        Bodhi.sampleAPI).2 = none ∧
      ((Bodhi.Factory.Configure {} (.ok { API := "http://127.0.0.1:8080" }) (some "client")
        (fun s => .ok s) (some "https://bodhi.fedoraproject.org")).1.UpdaterSet
        Bodhi.sampleAPI).1.Updaters.map Bodhi.Updater.Name =
        ["bodhi-F33", "bodhi-F34", "bodhi-EPEL-8"] :=
  ⟨(Bodhi.UpdaterSet_names
      (Bodhi.Factory.Configure {} (.ok { API := "http://127.0.0.1:8080" }) (some "client")
        (fun s => .ok s) (some "https://bodhi.fedoraproject.org")).1
      Bodhi.sampleAPI "http://127.0.0.1:8080" "client" Bodhi.sampleReleases rfl rfl rfl).1,
   rfl⟩

/-- C16, at the failing input: the module string of `shortModExe` has 36 bytes and a newline
17 bytes from its end, so `Info` returns the version and the module list `[["mod"], [""]]`;
for the entry `["mod"]` the switch takes the case `"mod", "dep"` and reads `l[1]`, which is
out of range. On `goodExe`, whose `mod` and `dep` entries have their fields, the runtime
package is followed by one package per `mod` or `dep` entry, in order. -/
theorem Gobin.Scan_short_mod_entry_out_of_range :
    Gobin.shortModExe.Info = .ok ("go1.16", [["mod"], [""]]) ∧
      Gobin.scanExe [] Gobin.shortModExe = .error Fault.indexOutOfRange ∧
      Gobin.Scan [Gobin.shortModExe] = .error Fault.indexOutOfRange ∧
      Gobin.Scan [Gobin.goodExe] =
        .ok [{ Name := "runtime", Version := "go1.16", Kind := BINARY,
               PackageDB := "go:bin/app" },
             { Name := "example.com/app", Version := "(devel)", Kind := BINARY,
               PackageDB := "go:bin/app" },
             { Name := "github.com/a/b", Version := "v1.2.3", Kind := BINARY,
               PackageDB := "go:bin/app" },
             { Name := "github.com/c/d", Version := "v0.1.0", Kind := BINARY,
               PackageDB := "go:bin/app" }] :=
  ⟨rfl, rfl, rfl, rfl⟩

end Claircore
